import Mathlib

/-!
# xPlat field framework and ABI boundary

A shallow embedding of `src/inc/ObjectBase.hpp` (the `Object` hierarchy:
`FieldBase<T>`, `FieldNBytes`, `StructuredObject`) and of
`src/xPlatAppx/xPlatAppx.cpp` (`ResultOf`, `UnpackAppx`, `PackAppx`,
`ValidateAppxSignature`, the constants), followed by theorems about them.

Conventions of the embedding:

* a C++ call that may throw is a function returning the state it leaves
  behind together with `Option Thrown` (`none`: the call returned);
* objects mutated in place are passed and returned explicitly;
* bytes are natural numbers; fixed-width integers are natural numbers laid
  out little-endian (the source copies the object representation of the
  integer, and its magic constants spell their ASCII tags in that order);
* a validator is handed the stored value by reference: a call may change the
  value, may change what the closure captured, and may throw; it acts on
  nothing else, neither on the stream nor on another object;
* the fields are bound to the one stream that is threaded through the call;
  `Object` has every child as an object of its own, `Shared` has the children
  as shared pointers into a heap, so that one object can sit at several
  positions.
-/

namespace xPlat

/-! ## Exceptions -/

/-- Modelled from the spec: `Exceptions.hpp` is not among the sources. A thrown
C++ object is either an `xPlat::ExceptionBase` (or a class derived from it, a
"recognized internal condition"), which carries the numeric code answered by
`Code()`, an `unsigned int` like the result it is assigned to, or any other
object (`std::bad_alloc`, ...), identified by a tag. -/
inductive Thrown where
  | ExceptionBase (Code : Nat)
  | other (what : Nat)
deriving DecidableEq, Repr

/-- Modelled from the spec: the codes that `Exceptions.hpp` gives to the two
exception classes `xPlatAppx.cpp` throws by name, both taken to derive from
`xPlat::ExceptionBase`. Their values are not in the sources and stay
parameters. -/
structure Exceptions where
  InvalidArgumentException : Nat
  InvalidStreamFormat : Nat
deriving DecidableEq, Repr

/-! ## Streams -/

/-- Modelled from the spec: `StreamBase.hpp` is not among the sources. A stream
is a byte sequence with a cursor: `before` holds the bytes in front of the
cursor, `after` the bytes from the cursor onwards. -/
structure StreamBase where
  before : List Nat
  after : List Nat
deriving DecidableEq, Repr

/-- The cursor position. -/
def StreamBase.pos (s : StreamBase) : Nat := s.before.length

/-- The whole byte sequence held by the stream. -/
def StreamBase.data (s : StreamBase) : List Nat := s.before ++ s.after

/-- Modelled from the spec: `Read(size, bytes)` delivers up to `size` bytes from
the cursor, fewer when the stream ends first, and moves the cursor past them.
The bytes delivered are returned; their number is the call's return value. -/
def StreamBase.Read (s : StreamBase) (size : Nat) : List Nat × StreamBase :=
  (s.after.take size, { before := s.before ++ s.after.take size, after := s.after.drop size })

/-- Modelled from the spec: `Write(size, bytes)` puts the bytes at the cursor,
over what was there, and moves the cursor past them. -/
def StreamBase.Write (s : StreamBase) (bytes : List Nat) : StreamBase :=
  { before := s.before ++ bytes, after := s.after.drop bytes.length }

/-- Modelled from the spec: moves the cursor to an absolute offset. -/
def StreamBase.Seek (s : StreamBase) (offset : Nat) : StreamBase :=
  { before := s.data.take offset, after := s.data.drop offset }

/-! ## Object representation of integers -/

/-- The `n` bytes of the object representation of an unsigned integer,
least significant byte first. -/
def encodeLE : Nat → Nat → List Nat
  | 0, _ => []
  | n + 1, v => v % 256 :: encodeLE n (v / 256)

/-- The unsigned integer whose object representation the bytes are. -/
def decodeLE : List Nat → Nat
  | [] => 0
  | b :: bs => b + 256 * decodeLE bs

/-- The content of a destination buffer that held `old` after a stream read
delivered `got` into its start: bytes past the delivered ones keep their
previous content. -/
def overlay (got old : List Nat) : List Nat := got ++ old.drop got.length

/-! ## ObjectBase.hpp -/

/-- What one call of a validator leaves behind. A validator is handed the stored
value by reference: `value` is what the storage holds when the call ends,
`captured` is what the closure holds then, and `thrown` is the exception when
the call ended by throwing. -/
structure Validation (T : Type) where
  value : T
  captured : Nat
  thrown : Option Thrown

/-- The type `Lambda = std::function<void(T& v)>` of a validator: a closure,
whose captured state is encoded as a number, and what a call does, given the
captured state and the value it is handed. A call may change the value (for a
buffer, its length too), may change the captured state, and may throw. -/
structure Lambda (T : Type) where
  captured : Nat
  call : Nat → T → Validation T

/-- What calling the validator on a value leaves behind. -/
def Lambda.run {T : Type} (validate : Lambda T) (value : T) : Validation T :=
  validate.call validate.captured value

/-- The validator after it was called on a value. -/
def Lambda.next {T : Type} (validate : Lambda T) (value : T) : Lambda T :=
  { captured := (validate.run value).captured, call := validate.call }

/-- A validator that only checks: it leaves the value and its captured state as
they are and throws what `verdict` answers for the value. -/
def Lambda.check {T : Type} (verdict : T → Option Thrown) : Lambda T :=
  { captured := 0
    call := fun captured value =>
      { value := value, captured := captured, thrown := verdict value } }

/-- The class hierarchy under `Object`. `FieldBase sizeofT` is `FieldBase<T>`
with `sizeof(T) = sizeofT`. Every child of a `StructuredObject` is here an
object of its own; children that are one object at several positions are the
subject of `Shared` below. -/
inductive Object where
  | FieldBase (sizeofT : Nat) (value : Nat) (validate : Lambda Nat)
  | FieldNBytes (value : List Nat) (validate : Lambda (List Nat))
  | StructuredObject (fields : List Object)

/-- The class `Field2Bytes : FieldBase<std::uint16_t>`. -/
def Field2Bytes (value : Nat) (validate : Lambda Nat) : Object :=
  Object.FieldBase 2 value validate

/-- The class `Field4Bytes : FieldBase<std::uint32_t>`. -/
def Field4Bytes (value : Nat) (validate : Lambda Nat) : Object :=
  Object.FieldBase 4 value validate

/-- The class `Field8Bytes : FieldBase<std::uint64_t>`. -/
def Field8Bytes (value : Nat) (validate : Lambda Nat) : Object :=
  Object.FieldBase 8 value validate

/-- The state a `Read` leaves behind: the object, the stream, and what was
thrown, if anything. -/
structure ReadResult (α : Type) where
  object : α
  stream : StreamBase
  thrown : Option Thrown

mutual
/-- The method `Size()`: `sizeof(T)`, `value.size()`, or the sum over the fields. -/
def Object.Size : Object → Nat
  | Object.FieldBase sizeofT _ _ => sizeofT
  | Object.FieldNBytes value _ => value.length
  | Object.StructuredObject fields => StructuredObject.Size fields
/-- The loop of `StructuredObject::Size`. -/
def StructuredObject.Size : List Object → Nat
  | [] => 0
  | field :: fields => field.Size + StructuredObject.Size fields
end

/-- The method `Validate()`: a field calls its validator on its stored value,
`validate(GetValue())` and `validate(value)`, which leaves the object with the
value and the closure as the call left them, also when it throws;
`StructuredObject::Validate` has an empty body. -/
def Object.Validate : Object → Object × Option Thrown
  | Object.FieldBase sizeofT value validate =>
      (Object.FieldBase sizeofT (validate.run value).value (validate.next value),
        (validate.run value).thrown)
  | Object.FieldNBytes value validate =>
      (Object.FieldNBytes (validate.run value).value (validate.next value),
        (validate.run value).thrown)
  | Object.StructuredObject fields => (Object.StructuredObject fields, none)

mutual
/-- The method `Write()`. -/
def Object.Write : Object → StreamBase → StreamBase
  | Object.FieldBase sizeofT value _, stream => stream.Write (encodeLE sizeofT value)
  | Object.FieldNBytes value _, stream => stream.Write value
  | Object.StructuredObject fields, stream => StructuredObject.Write fields stream
/-- The loop of `StructuredObject::Write`. -/
def StructuredObject.Write : List Object → StreamBase → StreamBase
  | [], stream => stream
  | field :: fields, stream => StructuredObject.Write fields (field.Write stream)
end

mutual
/-- The method `Read()`. A field reads `Size()` bytes from the stream into its
value and then calls `Validate()`. -/
def Object.Read : Object → StreamBase → ReadResult Object
  | Object.FieldBase sizeofT value validate, stream =>
      let value1 := decodeLE (overlay (stream.Read sizeofT).1 (encodeLE sizeofT value))
      { object := (Object.FieldBase sizeofT value1 validate).Validate.1
        stream := (stream.Read sizeofT).2
        thrown := (Object.FieldBase sizeofT value1 validate).Validate.2 }
  | Object.FieldNBytes value validate, stream =>
      let value1 := overlay (stream.Read value.length).1 value
      { object := (Object.FieldNBytes value1 validate).Validate.1
        stream := (stream.Read value.length).2
        thrown := (Object.FieldNBytes value1 validate).Validate.2 }
  | Object.StructuredObject fields, stream =>
      let r := StructuredObject.Read fields stream
      { object := Object.StructuredObject r.object, stream := r.stream, thrown := r.thrown }
/-- The loop of `StructuredObject::Read`: `field->Read(); field->Validate();`
for each field in order; an exception leaves the loop, the fields read so far
staying as they are. -/
def StructuredObject.Read : List Object → StreamBase → ReadResult (List Object)
  | [], stream => { object := [], stream := stream, thrown := none }
  | field :: fields, stream =>
      let r := field.Read stream
      match r.thrown with
      | some e => { object := r.object :: fields, stream := r.stream, thrown := some e }
      | none =>
        match r.object.Validate.2 with
        | some e =>
          { object := r.object.Validate.1 :: fields, stream := r.stream, thrown := some e }
        | none =>
          let rs := StructuredObject.Read fields r.stream
          { object := r.object.Validate.1 :: rs.object, stream := rs.stream
            thrown := rs.thrown }
end

/-- The member `StructuredObject::Field(index)`: the child at a position. -/
def Object.Field : Object → Nat → Option Object
  | Object.StructuredObject fields, index => fields[index]?
  | _, _ => none

/-! ### Predicates and views used to state properties of objects -/

/-- A field value: an integer of a fixed-width field with its width, or the
buffer of an N-byte field. -/
inductive Value where
  | integer (sizeofT value : Nat)
  | buffer (value : List Nat)
deriving DecidableEq, Repr

mutual
/-- The leaf fields of an object with the values they hold, in declared order. -/
def Object.leaves : Object → List Value
  | Object.FieldBase sizeofT value _ => [Value.integer sizeofT value]
  | Object.FieldNBytes value _ => [Value.buffer value]
  | Object.StructuredObject fields => StructuredObject.leaves fields
/-- The leaf fields of a list of objects, in order. -/
def StructuredObject.leaves : List Object → List Value
  | [] => []
  | field :: fields => field.leaves ++ StructuredObject.leaves fields
end

mutual
/-- Every validator of the object accepts the value its field holds and leaves
that value as it is, whatever its captured state. -/
def Object.Accepted : Object → Prop
  | Object.FieldBase _ value validate =>
      ∀ captured, (validate.call captured value).thrown = none
        ∧ (validate.call captured value).value = value
  | Object.FieldNBytes value validate =>
      ∀ captured, (validate.call captured value).thrown = none
        ∧ (validate.call captured value).value = value
  | Object.StructuredObject fields => StructuredObject.Accepted fields
/-- Every validator in the list accepts the value its field holds and leaves it
as it is. -/
def StructuredObject.Accepted : List Object → Prop
  | [] => True
  | field :: fields => field.Accepted ∧ StructuredObject.Accepted fields
end

mutual
/-- No validator of an N-byte field in the object changes the length of the
buffer it is handed. -/
def Object.KeepsLength : Object → Prop
  | Object.FieldBase _ _ _ => True
  | Object.FieldNBytes _ validate =>
      ∀ captured value, (validate.call captured value).value.length = value.length
  | Object.StructuredObject fields => StructuredObject.KeepsLength fields
/-- No validator of an N-byte field in the list changes the length of the
buffer it is handed. -/
def StructuredObject.KeepsLength : List Object → Prop
  | [] => True
  | field :: fields => field.KeepsLength ∧ StructuredObject.KeepsLength fields
end

mutual
/-- No validator of the object changes the value it is handed. -/
def Object.KeepsValue : Object → Prop
  | Object.FieldBase _ _ validate =>
      ∀ captured value, (validate.call captured value).value = value
  | Object.FieldNBytes _ validate =>
      ∀ captured value, (validate.call captured value).value = value
  | Object.StructuredObject fields => StructuredObject.KeepsValue fields
/-- No validator in the list changes the value it is handed. -/
def StructuredObject.KeepsValue : List Object → Prop
  | [] => True
  | field :: fields => field.KeepsValue ∧ StructuredObject.KeepsValue fields
end

mutual
/-- No validator of the object ever throws. -/
def Object.Lenient : Object → Prop
  | Object.FieldBase _ _ validate =>
      ∀ captured value, (validate.call captured value).thrown = none
  | Object.FieldNBytes _ validate =>
      ∀ captured value, (validate.call captured value).thrown = none
  | Object.StructuredObject fields => StructuredObject.Lenient fields
/-- No validator in the list ever throws. -/
def StructuredObject.Lenient : List Object → Prop
  | [] => True
  | field :: fields => field.Lenient ∧ StructuredObject.Lenient fields
end

mutual
/-- Every fixed-width field holds a value of its type `T`: an unsigned integer
of `sizeof(T)` bytes. -/
def Object.Representable : Object → Bool
  | Object.FieldBase sizeofT value _ => decide (value < 256 ^ sizeofT)
  | Object.FieldNBytes _ _ => true
  | Object.StructuredObject fields => StructuredObject.Representable fields
/-- Every fixed-width field in the list holds a value of its type. -/
def StructuredObject.Representable : List Object → Bool
  | [] => true
  | field :: fields => field.Representable && StructuredObject.Representable fields
end

mutual
/-- The bytes held by the object: each field's own bytes, in declared order. -/
def Object.bytes : Object → List Nat
  | Object.FieldBase sizeofT value _ => encodeLE sizeofT value
  | Object.FieldNBytes value _ => value
  | Object.StructuredObject fields => StructuredObject.bytes fields
/-- The bytes held by a list of objects, in order. -/
def StructuredObject.bytes : List Object → List Nat
  | [] => []
  | field :: fields => field.bytes ++ StructuredObject.bytes fields
end

/-! ## xPlatAppx.cpp -/

def MIN_DIGEST_COUNT : Nat := 5
def MAX_DIGEST_COUNT : Nat := 6
def ID_SIZE : Nat := 4
def SHA_256_DIGEST_SIZE : Nat := 32
def INDIRECT_DATA_ID : Nat := 0x58504145
def PACKAGE_HEADER_ID : Nat := 0x48505845
def BUNDLE_HEADER_ID : Nat := 0x48425845
def SIGNATURE_ID : Nat := 0x58434B50
def AXEH : Nat := 0x48455841
def AXEF : Nat := 0x46455841
def AXEB : Nat := 0x42455841
def AXPC : Nat := 0x43505841
def AXBM : Nat := 0x4D425841
def AXCI : Nat := 0x49435841
def MAX_SUPPORTED_EAPPX_VERSION : Nat := 0x0001000000000000

/-- The members of `BLOBHEADER` in declared order, each with its size in bytes. -/
def BLOBHEADER.members : List (String × Nat) :=
  [("headerId", 4), ("headerSize", 2), ("version", 8), ("footerOffset", 8),
   ("footerSize", 8), ("fileCount", 8),
   ("signatureOffset", 8), ("signatureCompressionType", 2),
   ("signatureUncompressedSize", 4), ("signatureCompressedSize", 4),
   ("codeIntegrityOffset", 8), ("codeIntegrityCompressionType", 2),
   ("codeIntegrityUncompressedSize", 4), ("codeIntegrityCompressedSize", 4)]

/-- The value of `sizeof(BLOBHEADER)`: the structure is declared between
`pshpack1.h` and `poppack.h`, so its members are laid out without padding. -/
def BLOBHEADER.sizeof : Nat := (BLOBHEADER.members.map Prod.snd).sum

/-- The offset of a member of the packed `BLOBHEADER`: the sizes of the members
declared before it. -/
def BLOBHEADER.offsetof (member : String) : Nat :=
  ((BLOBHEADER.members.takeWhile (fun m => m.1 != member)).map Prod.snd).sum

/-- How a call across the ABI ends: it returns an `unsigned int`, or an
exception leaves the function. -/
inductive Completion where
  | returned (result : Nat)
  | escaped (e : Thrown)
deriving DecidableEq, Repr

/-- The function `ResultOf(char* source, char* destination, Lambda lambda)`.
A `char*` is `none` when null. The lambda and the boundary act on a state
`world` that stands for everything the lambda can touch. -/
def ResultOf₂ {σ : Type} (X : Exceptions) (source destination : Option String)
    (lambda : σ → σ × Option Thrown) (world : σ) : σ × Completion :=
  let tried : σ × Option Thrown :=
    if source = none ∨ destination = none then
      (world, some (Thrown.ExceptionBase X.InvalidArgumentException))
    else lambda world
  match tried.2 with
  | none => (tried.1, Completion.returned 0)
  | some (Thrown.ExceptionBase Code) => (tried.1, Completion.returned Code)
  | some (Thrown.other what) => (tried.1, Completion.escaped (Thrown.other what))

/-- The function `ResultOf(char* appx, Lambda lambda)`. -/
def ResultOf₁ {σ : Type} (X : Exceptions) (appx : Option String)
    (lambda : σ → σ × Option Thrown) (world : σ) : σ × Completion :=
  let tried : σ × Option Thrown :=
    if appx = none then
      (world, some (Thrown.ExceptionBase X.InvalidArgumentException))
    else lambda world
  match tried.2 with
  | none => (tried.1, Completion.returned 0)
  | some (Thrown.ExceptionBase Code) => (tried.1, Completion.returned Code)
  | some (Thrown.other what) => (tried.1, Completion.escaped (Thrown.other what))

/-- Modelled from the spec: `ZipObject.hpp` is not among the sources. A
container answers `GetFile(name)` with a stream over that entry, or throws. -/
structure ZipObject where
  GetFile : String → Except Thrown StreamBase

/-- Modelled from the spec: `FileStream.hpp` and `ZipObject.hpp` are not among
the sources. `openFile path` is the construction of a `FileStream` over the
path for reading, `openZip stream` the construction of a `ZipObject` over that
stream; either may throw. -/
structure Collaborators where
  openFile : String → Except Thrown StreamBase
  openZip : StreamBase → Except Thrown ZipObject

/-- The body of the lambda in `ValidateAppxSignature`. The 16384-byte buffer
receives what the read delivers; `headerId` is looked at only when more than
`sizeof(BLOBHEADER)` bytes were delivered, so it lies within them. -/
def ValidateAppxSignature.lambda (X : Exceptions) (appx : String)
    (world : Collaborators) : Collaborators × Option Thrown :=
  match world.openFile appx with
  | Except.error e => (world, some e)
  | Except.ok rawFile =>
    match world.openZip rawFile with
    | Except.error e => (world, some e)
    | Except.ok zip =>
      match zip.GetFile "AppxSignature.p7x" with
      | Except.error e => (world, some e)
      | Except.ok p7xStream =>
        let buffer := (p7xStream.Read 16384).1
        let cbRead := buffer.length
        let headerId := decodeLE (buffer.take 4)
        if cbRead > BLOBHEADER.sizeof ∧ headerId ≠ SIGNATURE_ID then
          (world, some (Thrown.ExceptionBase X.InvalidStreamFormat))
        else (world, none)

/-- The function `ValidateAppxSignature(char* appx)`. -/
def ValidateAppxSignature (X : Exceptions) (world : Collaborators)
    (appx : Option String) : Completion :=
  (ResultOf₁ X appx (ValidateAppxSignature.lambda X (appx.getD "")) world).2

/-! ## Indirect-data block -/

/-- Modelled from the spec: the sources declare the structure
`INDIRECT_DATA_DIGEST` and nothing that reads one. A digest entry is read as a
4-byte id, an 8-byte start, an 8-byte size and a 32-byte hash, with no
validation. -/
def INDIRECT_DATA_DIGEST : Object :=
  Object.StructuredObject
    [Field4Bytes 0 (Lambda.check (fun _ => none)), Field8Bytes 0 (Lambda.check (fun _ => none)),
     Field8Bytes 0 (Lambda.check (fun _ => none)),
     Object.FieldNBytes (List.replicate SHA_256_DIGEST_SIZE 0) (Lambda.check (fun _ => none))]

/-- Modelled from the spec: the sources declare the structure
`EAPPX_INDIRECT_DATA` and the constants `INDIRECT_DATA_ID`, `MIN_DIGEST_COUNT`
and `MAX_DIGEST_COUNT`, and nothing that reads or validates a block. The head
of a block is a 4-byte `eappxId`, which must equal the indirect-data magic, and
a 1-byte `digestCount`, which must lie between the two bounds. -/
def EAPPX_INDIRECT_DATA.head (formatInvalid validationFailed : Thrown) : Object :=
  Object.StructuredObject
    [Field4Bytes 0 (Lambda.check (fun eappxId =>
        if eappxId = INDIRECT_DATA_ID then none else some formatInvalid)),
     Object.FieldNBytes [0] (Lambda.check (fun digestCount =>
        if MIN_DIGEST_COUNT ≤ decodeLE digestCount ∧ decodeLE digestCount ≤ MAX_DIGEST_COUNT
        then none else some validationFailed))]

/-- Modelled from the spec: the `digestCount` held by a head that was read. -/
def EAPPX_INDIRECT_DATA.digestCount (head : Object) : Nat :=
  match head.Field 1 with
  | some (Object.FieldNBytes value _) => decodeLE value
  | _ => 0

/-- Modelled from the spec: reading an indirect-data block reads and validates
the head, then reads `digestCount` digest entries. -/
def EAPPX_INDIRECT_DATA.Read (formatInvalid validationFailed : Thrown)
    (stream : StreamBase) : ReadResult (List Object) :=
  let head := (EAPPX_INDIRECT_DATA.head formatInvalid validationFailed).Read stream
  match head.thrown with
  | some e => { object := [head.object], stream := head.stream, thrown := some e }
  | none =>
    let digests := (Object.StructuredObject
      (List.replicate (EAPPX_INDIRECT_DATA.digestCount head.object) INDIRECT_DATA_DIGEST)).Read
        head.stream
    { object := [head.object, digests.object], stream := digests.stream
      thrown := digests.thrown }

/-! ## Sample inputs -/

/-- A validator that accepts every value. -/
def Sample.accept {T : Type} : Lambda T := Lambda.check (fun _ => none)

/-- A validator that accepts one value only and throws `e` on any other. -/
def Sample.expect (wanted : Nat) (e : Thrown) : Lambda Nat :=
  Lambda.check (fun v => if v = wanted then none else some e)

/-- A validator that throws `e` on values above a ceiling. -/
def Sample.atMost (ceiling : Nat) (e : Thrown) : Lambda Nat :=
  Lambda.check (fun v => if v ≤ ceiling then none else some e)

/-- A structured object with fields of every kind, a nested structure
included, holding values its validators accept. -/
def Sample.header : Object :=
  Object.StructuredObject
    [Field4Bytes PACKAGE_HEADER_ID (Sample.expect PACKAGE_HEADER_ID (Thrown.ExceptionBase 2)),
     Field2Bytes 74 Sample.accept,
     Field8Bytes MAX_SUPPORTED_EAPPX_VERSION
       (Sample.atMost MAX_SUPPORTED_EAPPX_VERSION (Thrown.ExceptionBase 3)),
     Object.FieldNBytes [1, 2, 3] Sample.accept,
     Object.StructuredObject [Field2Bytes 7 Sample.accept]]

/-- A stream with one byte in front of the cursor and twenty-four behind it. -/
def Sample.stream : StreamBase :=
  { before := [255], after := List.replicate 24 170 }

/-- A field whose validator wants the package header id. -/
def Sample.child : Object :=
  Field4Bytes 0 (Sample.expect PACKAGE_HEADER_ID (Thrown.ExceptionBase 2))

/-- Codes for the two named exception classes, chosen non-zero and distinct. -/
def Sample.codes : Exceptions :=
  { InvalidArgumentException := 1, InvalidStreamFormat := 2 }

/-- A world that counts how often a lambda ran. -/
def Sample.counting (thrown : Option Thrown) : Nat → Nat × Option Thrown :=
  fun calls => (calls + 1, thrown)

/-- A container whose `AppxSignature.p7x` entry has the given content and
which has no other entry. -/
def Sample.zip (content : List Nat) : ZipObject :=
  { GetFile := fun name =>
      if name = "AppxSignature.p7x" then Except.ok { before := [], after := content }
      else Except.error (Thrown.other 0) }

/-- Collaborators over which every path opens as `Sample.zip content`. -/
def Sample.world (content : List Nat) : Collaborators :=
  { openFile := fun _ => Except.ok { before := [], after := [] }
    openZip := fun _ => Except.ok (Sample.zip content) }

/-- The bytes of an indirect-data block: the magic, a count, and as many
digest entries of 52 zero bytes. -/
def Sample.indirectData (digestCount : Nat) : StreamBase :=
  { before := []
    after := encodeLE 4 INDIRECT_DATA_ID ++ digestCount :: List.replicate (52 * digestCount) 0 }

/-! ## Package header -/

/-- Modelled from the spec: the sources declare the structure `BLOBHEADER` and
the constants `PACKAGE_HEADER_ID` and `MAX_SUPPORTED_EAPPX_VERSION`, and nothing
that reads a header through the field framework. A header of a given kind is
the structured object whose fields are the members of `BLOBHEADER` in declared
order; its magic id must equal the constant of the kind being parsed, a
format-invalid condition otherwise, and its version must not exceed the maximum
supported version, an unsupported-version condition otherwise. -/
def BLOBHEADER.object (headerKind : Nat) (formatInvalid unsupportedVersion : Thrown) : Object :=
  Object.StructuredObject
    [Field4Bytes 0 (Lambda.check (fun headerId =>
        if headerId = headerKind then none else some formatInvalid)),
     Field2Bytes 0 (Lambda.check (fun _ => none)),
     Field8Bytes 0 (Lambda.check (fun version =>
        if version ≤ MAX_SUPPORTED_EAPPX_VERSION then none else some unsupportedVersion)),
     Field8Bytes 0 (Lambda.check (fun _ => none)), Field8Bytes 0 (Lambda.check (fun _ => none)),
     Field8Bytes 0 (Lambda.check (fun _ => none)),
     Field8Bytes 0 (Lambda.check (fun _ => none)), Field2Bytes 0 (Lambda.check (fun _ => none)),
     Field4Bytes 0 (Lambda.check (fun _ => none)), Field4Bytes 0 (Lambda.check (fun _ => none)),
     Field8Bytes 0 (Lambda.check (fun _ => none)), Field2Bytes 0 (Lambda.check (fun _ => none)),
     Field4Bytes 0 (Lambda.check (fun _ => none)), Field4Bytes 0 (Lambda.check (fun _ => none))]

/-- Modelled from the spec: the package header, whose magic id must equal
`PACKAGE_HEADER_ID`; a mismatch raises `InvalidStreamFormat`. -/
def PackageHeader (X : Exceptions) (unsupportedVersion : Thrown) : Object :=
  BLOBHEADER.object PACKAGE_HEADER_ID (Thrown.ExceptionBase X.InvalidStreamFormat)
    unsupportedVersion

/-! ## Further views of objects -/

mutual
/-- The object with every validator replaced by one that rejects every value. -/
def Object.rejecting (e : Thrown) : Object → Object
  | Object.FieldBase sizeofT value _ =>
      Object.FieldBase sizeofT value (Lambda.check (fun _ => some e))
  | Object.FieldNBytes value _ => Object.FieldNBytes value (Lambda.check (fun _ => some e))
  | Object.StructuredObject fields =>
      Object.StructuredObject (StructuredObject.rejecting e fields)
/-- The fields with every validator replaced by one that rejects every value. -/
def StructuredObject.rejecting (e : Thrown) : List Object → List Object
  | [] => []
  | field :: fields => field.rejecting e :: StructuredObject.rejecting e fields
end

/-- Whether the object is a leaf field rather than a structured object. -/
def Object.isField : Object → Bool
  | Object.StructuredObject _ => false
  | _ => true

/-! ## Validator invocations -/

/-- One invocation of a validator: the value it was handed, the value it left
in the storage, and the exception when it threw. -/
structure Call where
  argument : Value
  left : Value
  thrown : Option Thrown
deriving DecidableEq, Repr

/-- The validator invocations made by one call of `Validate()`: a field calls
its validator once on its stored value, `StructuredObject::Validate` calls
none. -/
def Object.ValidateLog : Object → List Call
  | Object.FieldBase sizeofT value validate =>
      [{ argument := Value.integer sizeofT value
         left := Value.integer sizeofT (validate.run value).value
         thrown := (validate.run value).thrown }]
  | Object.FieldNBytes value validate =>
      [{ argument := Value.buffer value
         left := Value.buffer (validate.run value).value
         thrown := (validate.run value).thrown }]
  | Object.StructuredObject _ => []

mutual
/-- The validator invocations made by one call of `Read()`, in order. The
states are those of `Object.Read`. -/
def Object.ReadLog : Object → StreamBase → List Call
  | Object.FieldBase sizeofT value validate, stream =>
      (Object.FieldBase sizeofT
        (decodeLE (overlay (stream.Read sizeofT).1 (encodeLE sizeofT value)))
        validate).ValidateLog
  | Object.FieldNBytes value validate, stream =>
      (Object.FieldNBytes (overlay (stream.Read value.length).1 value) validate).ValidateLog
  | Object.StructuredObject fields, stream => StructuredObject.ReadLog fields stream
/-- The validator invocations made by the loop of `StructuredObject::Read`:
those of `field->Read()`, then, when that returned, those of
`field->Validate()`, then, when that returned, those of the later fields. -/
def StructuredObject.ReadLog : List Object → StreamBase → List Call
  | [], _ => []
  | field :: fields, stream =>
      field.ReadLog stream ++
        match (field.Read stream).thrown with
        | some _ => []
        | none =>
          (field.Read stream).object.ValidateLog ++
            match (field.Read stream).object.Validate.2 with
            | some _ => []
            | none => StructuredObject.ReadLog fields (field.Read stream).stream
end

mutual
/-- The object with every validator replaced by one that accepts every value
and changes nothing: reading it only decodes. -/
def Object.unvalidated : Object → Object
  | Object.FieldBase sizeofT value _ =>
      Object.FieldBase sizeofT value (Lambda.check (fun _ => none))
  | Object.FieldNBytes value _ => Object.FieldNBytes value (Lambda.check (fun _ => none))
  | Object.StructuredObject fields =>
      Object.StructuredObject (StructuredObject.unvalidated fields)
/-- The fields with every validator replaced by one that accepts every value
and changes nothing. -/
def StructuredObject.unvalidated : List Object → List Object
  | [] => []
  | field :: fields => field.unvalidated :: StructuredObject.unvalidated fields
end

/-- The invocations of a field that is read and validated without an exception:
the first on the decoded value, the second on the value the first left, which
leaves the value the field holds in the end. -/
def Call.pair (values : Value × Value × Value) : List Call :=
  [{ argument := values.1, left := values.2.1, thrown := none },
   { argument := values.2.1, left := values.2.2, thrown := none }]

/-! ## Shared children -/

/-- The children as the source holds them, `std::shared_ptr<Object>`: a pointer
to an object of the heap, or a structured object whose `fields` are such
children. The same address at several positions is one object at several
positions; a structured object holds nothing but its `fields`, so one that is
shared is the same list of children at each of its positions. -/
inductive Shared where
  | ptr (address : Nat)
  | StructuredObject (fields : List Shared)

/-- The objects that the pointers point to, by address. -/
abbrev Heap := Nat → Object

/-- The heap with the object at one address replaced. -/
def Heap.store (heap : Heap) (address : Nat) (o : Object) : Heap :=
  fun a => if a = address then o else heap a

/-- The state a `Read` through shared pointers leaves behind: the heap, the
stream, and what was thrown, if anything. -/
structure SharedResult where
  heap : Heap
  stream : StreamBase
  thrown : Option Thrown

/-- The method `Validate()` called through a shared pointer: the object pointed
to validates itself in place; `StructuredObject::Validate` has an empty
body. -/
def Shared.Validate : Shared → Heap → Heap × Option Thrown
  | Shared.ptr address, heap =>
      (heap.store address (heap address).Validate.1, (heap address).Validate.2)
  | Shared.StructuredObject _, heap => (heap, none)

mutual
/-- The method `Read()` called through a shared pointer: the object pointed to
reads itself in place. -/
def Shared.Read : Shared → Heap → StreamBase → SharedResult
  | Shared.ptr address, heap, stream =>
      { heap := heap.store address ((heap address).Read stream).object
        stream := ((heap address).Read stream).stream
        thrown := ((heap address).Read stream).thrown }
  | Shared.StructuredObject fields, heap, stream => Shared.ReadFields fields heap stream
/-- The loop of `StructuredObject::Read` over shared children:
`field->Read(); field->Validate();` for each field in order; an exception
leaves the loop, the heap staying as it is. -/
def Shared.ReadFields : List Shared → Heap → StreamBase → SharedResult
  | [], heap, stream => { heap := heap, stream := stream, thrown := none }
  | field :: fields, heap, stream =>
      let r := field.Read heap stream
      match r.thrown with
      | some e => { heap := r.heap, stream := r.stream, thrown := some e }
      | none =>
        match (field.Validate r.heap).2 with
        | some e => { heap := (field.Validate r.heap).1, stream := r.stream, thrown := some e }
        | none => Shared.ReadFields fields (field.Validate r.heap).1 r.stream
end

mutual
/-- The method `Size()` called through a shared pointer. -/
def Shared.Size : Shared → Heap → Nat
  | Shared.ptr address, heap => (heap address).Size
  | Shared.StructuredObject fields, heap => Shared.SizeFields fields heap
/-- The loop of `StructuredObject::Size` over shared children. -/
def Shared.SizeFields : List Shared → Heap → Nat
  | [], _ => 0
  | field :: fields, heap => field.Size heap + Shared.SizeFields fields heap
end

mutual
/-- The addresses of the objects a shared child reaches. -/
def Shared.addresses : Shared → List Nat
  | Shared.ptr address => [address]
  | Shared.StructuredObject fields => Shared.addressesOf fields
/-- The addresses of the objects a list of shared children reaches. -/
def Shared.addressesOf : List Shared → List Nat
  | [] => []
  | field :: fields => field.addresses ++ Shared.addressesOf fields
end

mutual
/-- The object a shared child stands for when no object is shared: the object
pointed to, or the structured object of what its fields stand for. -/
def Shared.load : Shared → Heap → Object
  | Shared.ptr address, heap => heap address
  | Shared.StructuredObject fields, heap =>
      Object.StructuredObject (Shared.loadFields fields heap)
/-- The objects a list of shared children stands for. -/
def Shared.loadFields : List Shared → Heap → List Object
  | [], _ => []
  | field :: fields, heap => field.load heap :: Shared.loadFields fields heap
end

/-- A heap of three leaf fields: a 2-byte field at address 0, `Sample.child` at
address 1, an N-byte field of two bytes at address 2. -/
def Sample.heap : Heap :=
  fun a =>
    match a with
    | 0 => Field2Bytes 0 Sample.accept
    | 1 => Sample.child
    | 2 => Object.FieldNBytes [5, 6] Sample.accept
    | _ => Object.StructuredObject []

/-- A validator that accepts every value and changes it: it adds one, as a
`std::uint16_t`. -/
def Sample.increment : Lambda Nat :=
  { captured := 0
    call := fun captured value =>
      { value := (value + 1) % 2 ^ 16, captured := captured, thrown := none } }

/-- A validator that accepts every buffer and appends a zero byte to it. -/
def Sample.grow : Lambda (List Nat) :=
  { captured := 0
    call := fun captured value =>
      { value := value ++ [0], captured := captured, thrown := none } }

/-- A structured object of one 2-byte field that holds 1 and whose validator
adds one. -/
def Sample.counter : Object :=
  Object.StructuredObject [Field2Bytes 1 Sample.increment]

/-- The values of `xPlat::FileStream::Mode` that the workflows pass. -/
inductive Mode where
  | READ
  | WRITE
  | WRITE_UPDATE
deriving DecidableEq, Repr

/-- A call that `UnpackAppx` or `PackAppx` makes to a collaborator, named after
the constructor or method called. -/
inductive Op where
  | DirectoryObject (path : String)
  | FileStream (path : String) (mode : Mode)
  | ZipObject
  | zip_GetFileNames
  | zip_GetFile (fileName : String)
  | zip_OpenFile (fileName : String) (mode : Mode)
  | zip_CommitChanges
  | directory_GetFileNames
  | directory_GetFile (fileName : String)
  | directory_OpenFile (fileName : String) (mode : Mode)
  | CopyTo (fileName : String)
  | Close (fileName : String)
deriving DecidableEq, Repr

/-- The named entries of a container or of a directory tree, each with its
bytes. -/
abbrev Entries := List (String × List Nat)

/-- The value stored under a key, if any. -/
def lookup {β : Type} (key : String) : List (String × β) → Option β
  | [] => none
  | (k, v) :: rest => if k = key then some v else lookup key rest

/-- Stores a value under a key: in place when the key is there, at the end
otherwise. -/
def upsert {β : Type} (key : String) (value : β) : List (String × β) → List (String × β)
  | [] => [(key, value)]
  | (k, v) :: rest => if k = key then (key, value) :: rest else (k, v) :: upsert key value rest

/-- Modelled from the spec: `FileStream.hpp`, `ZipObject.hpp` and
`DirectoryObject.hpp` are not among the sources. What the collaborators act on:
the container files by path with the entries committed to them, the directory
trees by path with their files, the entries staged in the container that is
being written and not yet committed, and the calls made so far. Container
files and directory trees are kept apart: no container file is a file of a
directory tree. -/
structure World where
  archives : List (String × Entries)
  directories : List (String × Entries)
  staged : Entries
  trace : List Op
deriving DecidableEq, Repr

/-- Modelled from the spec: how the collaborators fail. `inject op` is the
exception a call throws, if it throws ("underlying I/O failure"); `missing` is
what is thrown for a container or directory that does not exist. -/
structure Faults where
  inject : Op → Option Thrown
  missing : Thrown

/-- Modelled from the spec: a call to a collaborator. The call is recorded; it
throws when the collaborator fails and has its effect otherwise. -/
def perform (F : Faults) (op : Op) (effect : World → World) (w : World) :
    World × Option Thrown :=
  match F.inject op with
  | some e => ({ w with trace := w.trace ++ [op] }, some e)
  | none => ({ effect w with trace := w.trace ++ [op] }, none)

/-- Sequencing of statements: the next statement runs when the one before it
returned; an exception ends the sequence. -/
def andThen (r : World × Option Thrown) (next : World → World × Option Thrown) :
    World × Option Thrown :=
  match r.2 with
  | some e => (r.1, some e)
  | none => next r.1

/-- Modelled from the spec: the file of a directory tree gets the given bytes,
created when it is not there. -/
def World.putFile (path fileName : String) (bytes : List Nat) (w : World) : World :=
  { w with directories :=
      upsert path (upsert fileName bytes ((lookup path w.directories).getD [])) w.directories }

/-- Modelled from the spec: the entry staged in the open container gets the
given bytes, created when it is not there. -/
def World.stage (fileName : String) (bytes : List Nat) (w : World) : World :=
  { w with staged := upsert fileName bytes w.staged }

/-- The loop of `UnpackAppx`: for each name, `zip.GetFile`, `directory.OpenFile`
with `WRITE_UPDATE`, `CopyTo`, `Close`. -/
def UnpackAppx.loop (F : Faults) (to_ : String) (zip : Entries) :
    List String → World → World × Option Thrown
  | [], w => (w, none)
  | fileName :: fileNames, w =>
    andThen (perform F (Op.zip_GetFile fileName) id w) fun w =>
    match lookup fileName zip with
    | none => (w, some F.missing)
    | some bytes =>
      andThen (perform F (Op.directory_OpenFile fileName Mode.WRITE_UPDATE)
        (World.putFile to_ fileName []) w) fun w =>
      andThen (perform F (Op.CopyTo fileName) (World.putFile to_ fileName bytes) w) fun w =>
      andThen (perform F (Op.Close fileName) id w) fun w =>
      UnpackAppx.loop F to_ zip fileNames w

/-- The body of the lambda in `UnpackAppx`. -/
def UnpackAppx.lambda (F : Faults) (from_ to_ : String) (w : World) : World × Option Thrown :=
  andThen (perform F (Op.DirectoryObject to_) id w) fun w =>
  andThen (perform F (Op.FileStream from_ Mode.READ) id w) fun w =>
  match lookup from_ w.archives with
  | none => (w, some F.missing)
  | some zip =>
    andThen (perform F Op.ZipObject id w) fun w =>
    andThen (perform F Op.zip_GetFileNames id w) fun w =>
    UnpackAppx.loop F to_ zip (zip.map Prod.fst) w

/-- The function `UnpackAppx(char* from, char* to)`. -/
def UnpackAppx (X : Exceptions) (F : Faults) (from_ to_ : Option String) (w : World) :
    World × Completion :=
  ResultOf₂ X from_ to_ (UnpackAppx.lambda F (from_.getD "") (to_.getD "")) w

/-- The loop of `PackAppx`: for each name, `directory.GetFile`, `zip.OpenFile`
with `WRITE`, `CopyTo`. -/
def PackAppx.loop (F : Faults) (directory : Entries) :
    List String → World → World × Option Thrown
  | [], w => (w, none)
  | fileName :: fileNames, w =>
    andThen (perform F (Op.directory_GetFile fileName) id w) fun w =>
    match lookup fileName directory with
    | none => (w, some F.missing)
    | some bytes =>
      andThen (perform F (Op.zip_OpenFile fileName Mode.WRITE) (World.stage fileName []) w)
        fun w =>
      andThen (perform F (Op.CopyTo fileName) (World.stage fileName bytes) w) fun w =>
      PackAppx.loop F directory fileNames w

/-- The body of the lambda in `PackAppx`: the loop, then `zip.CommitChanges()`. -/
def PackAppx.lambda (F : Faults) (from_ to_ : String) (w : World) : World × Option Thrown :=
  andThen (perform F (Op.DirectoryObject from_) id w) fun w =>
  andThen (perform F (Op.FileStream to_ Mode.WRITE)
    (fun w => { w with archives := upsert to_ [] w.archives }) w) fun w =>
  andThen (perform F Op.ZipObject (fun w => { w with staged := [] }) w) fun w =>
  andThen (perform F Op.directory_GetFileNames id w) fun w =>
  match lookup from_ w.directories with
  | none => (w, some F.missing)
  | some directory =>
    andThen (PackAppx.loop F directory (directory.map Prod.fst) w) fun w =>
    perform F Op.zip_CommitChanges
      (fun w => { w with archives := upsert to_ w.staged w.archives }) w

/-- The function `PackAppx(char* from, char* to)`. -/
def PackAppx (X : Exceptions) (F : Faults) (from_ to_ : Option String) (w : World) :
    World × Completion :=
  ResultOf₂ X from_ to_ (PackAppx.lambda F (from_.getD "") (to_.getD "")) w

/-- The calls `PackAppx` makes before its loop. -/
def PackAppx.prologue (from_ to_ : String) : List Op :=
  [Op.DirectoryObject from_, Op.FileStream to_ Mode.WRITE, Op.ZipObject,
   Op.directory_GetFileNames]

/-- The calls of one turn of the loop of `PackAppx`: open the source, open the
target entry, copy. -/
def PackAppx.steps (fileName : String) : List Op :=
  [Op.directory_GetFile fileName, Op.zip_OpenFile fileName Mode.WRITE, Op.CopyTo fileName]

/-- Collaborators that never fail. -/
def Sample.noFaults : Faults :=
  { inject := fun _ => none, missing := Thrown.ExceptionBase 5 }

/-- Collaborators that fail when the entry `b.txt` is copied. -/
def Sample.copyFault : Faults :=
  { inject := fun op => if op = Op.CopyTo "b.txt" then some (Thrown.ExceptionBase 6) else none
    missing := Thrown.ExceptionBase 5 }

/-- An archive of three entries. -/
def Sample.archive : Entries :=
  [("AppxManifest.xml", [60, 63]), ("b.txt", [1, 2, 3]), ("AppxSignature.p7x", [80, 75, 67, 88])]

/-- A world with `Sample.archive` at `a.appx` and an empty directory `out`. -/
def Sample.disk : World :=
  { archives := [("a.appx", Sample.archive)], directories := [("out", [])], staged := []
    trace := [] }

/-- A world with a directory `out` that holds the files of `Sample.archive`. -/
def Sample.unpacked : World :=
  { archives := [], directories := [("out", Sample.archive)], staged := [], trace := [] }

/-! ## Lemmas -/

theorem encodeLE_length (n v : Nat) : (encodeLE n v).length = n := by
  induction n generalizing v with
  | zero => rfl
  | succ n ih => simp [encodeLE, ih]

theorem decodeLE_encodeLE (n v : Nat) (h : v < 256 ^ n) : decodeLE (encodeLE n v) = v := by
  induction n generalizing v with
  | zero => simp at h; subst h; rfl
  | succ n ih =>
    have h1 : v / 256 < 256 ^ n := by
      rw [Nat.div_lt_iff_lt_mul (by norm_num)]
      rw [pow_succ] at h; exact h
    simp only [encodeLE, decodeLE, ih _ h1]
    omega

theorem StreamBase.Write_nil (s : StreamBase) : s.Write [] = s := by
  simp [StreamBase.Write]

theorem StreamBase.Write_append (s : StreamBase) (a b : List Nat) :
    (s.Write a).Write b = s.Write (a ++ b) := by
  simp [StreamBase.Write, Nat.add_comm]

mutual
theorem Object.Write_eq (o : Object) (s : StreamBase) : o.Write s = s.Write o.bytes := by
  cases o with
  | FieldBase n v val => simp [Object.Write, Object.bytes]
  | FieldNBytes v val => simp [Object.Write, Object.bytes]
  | StructuredObject fs => simp [Object.Write, Object.bytes, StructuredObject.Write_fields_eq fs s]
theorem StructuredObject.Write_fields_eq (fs : List Object) (s : StreamBase) :
    StructuredObject.Write fs s = s.Write (StructuredObject.bytes fs) := by
  cases fs with
  | nil => simp [StructuredObject.Write, StructuredObject.bytes, StreamBase.Write_nil]
  | cons f fs =>
    simp [StructuredObject.Write, StructuredObject.bytes, Object.Write_eq f s,
      StructuredObject.Write_fields_eq fs, StreamBase.Write_append]
end

theorem overlay_full (got old : List Nat) (h : old.length ≤ got.length) :
    overlay got old = got := by
  simp [overlay, List.drop_eq_nil_of_le h]

theorem StreamBase.Read_exact (b bytes rest : List Nat) :
    (StreamBase.mk b (bytes ++ rest)).Read bytes.length
      = (bytes, StreamBase.mk (b ++ bytes) rest) := by
  simp [StreamBase.Read]

theorem StreamBase.Seek_Write (s : StreamBase) (bytes : List Nat) :
    (s.Write bytes).Seek s.pos = ⟨s.before, bytes ++ s.after.drop bytes.length⟩ := by
  simp [StreamBase.Seek, StreamBase.Write, StreamBase.pos, StreamBase.data]

mutual
theorem Object.bytes_length (o : Object) : o.bytes.length = o.Size := by
  cases o with
  | FieldBase n v val => simp [Object.bytes, Object.Size, encodeLE_length]
  | FieldNBytes v val => simp [Object.bytes, Object.Size]
  | StructuredObject fs => simp [Object.bytes, Object.Size, StructuredObject.bytes_fields_length fs]
theorem StructuredObject.bytes_fields_length (fs : List Object) :
    (StructuredObject.bytes fs).length = StructuredObject.Size fs := by
  cases fs with
  | nil => rfl
  | cons f fs =>
    simp [StructuredObject.bytes, StructuredObject.Size, Object.bytes_length f,
      StructuredObject.bytes_fields_length fs]
end

theorem Object.Write_pos (o : Object) (s : StreamBase) : (o.Write s).pos = s.pos + o.Size := by
  rw [Object.Write_eq]
  simp [StreamBase.Write, StreamBase.pos, Object.bytes_length]

theorem overlay_length (got old : List Nat) (h : got.length ≤ old.length) :
    (overlay got old).length = old.length := by
  simp [overlay]; omega

theorem StreamBase.Read_Read (s : StreamBase) (a b : Nat) :
    ((s.Read a).2.Read b).2 = (s.Read (a + b)).2 := by
  simp [StreamBase.Read, List.take_add, Nat.add_comm]

theorem StreamBase.Read_zero (s : StreamBase) : (s.Read 0).2 = s := by
  simp [StreamBase.Read]

theorem StreamBase.Read_pos (s : StreamBase) (n : Nat) (h : n ≤ s.after.length) :
    (s.Read n).2.pos = s.pos + n := by
  simp [StreamBase.Read, StreamBase.pos]; omega

theorem ValidateAppxSignature_eq (X : Exceptions) (world : Collaborators) (appx : String)
    (rawFile : StreamBase) (zip : ZipObject) (p7xStream : StreamBase)
    (h1 : world.openFile appx = Except.ok rawFile)
    (h2 : world.openZip rawFile = Except.ok zip)
    (h3 : zip.GetFile "AppxSignature.p7x" = Except.ok p7xStream) :
    ValidateAppxSignature X world (some appx)
      = if BLOBHEADER.sizeof < p7xStream.after.length
            ∧ decodeLE (p7xStream.after.take 4) ≠ SIGNATURE_ID
        then Completion.returned X.InvalidStreamFormat else Completion.returned 0 := by
  have hs : BLOBHEADER.sizeof = 74 := by decide
  have hlen : (BLOBHEADER.sizeof < (p7xStream.after.take 16384).length)
      ↔ (BLOBHEADER.sizeof < p7xStream.after.length) := by
    rw [hs, List.length_take]; omega
  have htake : (p7xStream.after.take 16384).take 4 = p7xStream.after.take 4 := by
    rw [List.take_take]; rfl
  simp only [ValidateAppxSignature, ResultOf₁, ValidateAppxSignature.lambda, Option.getD_some,
    h1, h2, h3, StreamBase.Read, htake, gt_iff_lt, hlen]
  by_cases hc : BLOBHEADER.sizeof < p7xStream.after.length
      ∧ decodeLE (p7xStream.after.take 4) ≠ SIGNATURE_ID
  · simp [hc]
  · simp [hc]

theorem StructuredObject.bytes_eq_flatten (fs : List Object) :
    StructuredObject.bytes fs = (fs.map Object.bytes).flatten := by
  induction fs with
  | nil => rfl
  | cons f fs ih => simp [StructuredObject.bytes, ih]

mutual
theorem Object.rejecting_bytes (e : Thrown) (o : Object) : (o.rejecting e).bytes = o.bytes := by
  cases o with
  | FieldBase n v val => simp [Object.rejecting, Object.bytes]
  | FieldNBytes v val => simp [Object.rejecting, Object.bytes]
  | StructuredObject fs =>
    simp [Object.rejecting, Object.bytes, StructuredObject.rejecting_fields_bytes e fs]
theorem StructuredObject.rejecting_fields_bytes (e : Thrown) (fs : List Object) :
    StructuredObject.bytes (StructuredObject.rejecting e fs) = StructuredObject.bytes fs := by
  cases fs with
  | nil => rfl
  | cons f fs =>
    simp [StructuredObject.rejecting, StructuredObject.bytes, Object.rejecting_bytes e f,
      StructuredObject.rejecting_fields_bytes e fs]
end

/-! ### Reading with validators that change what they are handed -/

theorem Object.Read_StructuredObject_thrown (fields : List Object) (s : StreamBase) :
    ((Object.StructuredObject fields).Read s).thrown = (StructuredObject.Read fields s).thrown := by
  simp only [Object.Read]

theorem Object.Validate_Accepted (o : Object) (h : o.Accepted) :
    o.Validate.2 = none ∧ o.Validate.1.leaves = o.leaves ∧ o.Validate.1.Accepted := by
  cases o with
  | FieldBase n v val =>
    simp only [Object.Accepted] at h
    have h0 := h val.captured
    simp only [Object.Validate, Lambda.run, Lambda.next, Object.leaves, Object.Accepted, h0.1,
      h0.2, true_and]
    exact h
  | FieldNBytes v val =>
    simp only [Object.Accepted] at h
    have h0 := h val.captured
    simp only [Object.Validate, Lambda.run, Lambda.next, Object.leaves, Object.Accepted, h0.1,
      h0.2, true_and]
    exact h
  | StructuredObject fs => exact ⟨rfl, rfl, h⟩

theorem Object.Validate_KeepsLength (o : Object) (h : o.KeepsLength) :
    o.Validate.1.Size = o.Size ∧ o.Validate.1.KeepsLength := by
  cases o with
  | FieldBase n v val => simp [Object.Validate, Object.Size, Object.KeepsLength]
  | FieldNBytes v val =>
    simp only [Object.KeepsLength] at h
    refine ⟨?_, ?_⟩
    · simp only [Object.Validate, Object.Size, Lambda.run]
      exact h _ _
    · simp only [Object.Validate, Object.KeepsLength, Lambda.next]
      exact h
  | StructuredObject fs => exact ⟨rfl, h⟩

mutual
theorem Object.Read_bytes (o : Object) (b rest : List Nat)
    (hv : o.Accepted) (ht : o.Representable = true) :
    (o.Read ⟨b, o.bytes ++ rest⟩).thrown = none ∧
    (o.Read ⟨b, o.bytes ++ rest⟩).stream = ⟨b ++ o.bytes, rest⟩ ∧
    (o.Read ⟨b, o.bytes ++ rest⟩).object.leaves = o.leaves ∧
    (o.Read ⟨b, o.bytes ++ rest⟩).object.Accepted := by
  cases o with
  | FieldBase n v val =>
    have hlen : (encodeLE n v).length = n := encodeLE_length n v
    have hr := StreamBase.Read_exact b (encodeLE n v) rest
    rw [hlen] at hr
    have hov : overlay (encodeLE n v) (encodeLE n v) = encodeLE n v := overlay_full _ _ (le_refl _)
    have hd : decodeLE (encodeLE n v) = v :=
      decodeLE_encodeLE n v (by simpa [Object.Representable] using ht)
    have ha := Object.Validate_Accepted (Object.FieldBase n v val) hv
    simp only [Object.Read, Object.bytes, hr, hov, hd]
    exact ⟨ha.1, trivial, ha.2.1, ha.2.2⟩
  | FieldNBytes v val =>
    have hr := StreamBase.Read_exact b v rest
    have hov : overlay v v = v := overlay_full _ _ (le_refl _)
    have ha := Object.Validate_Accepted (Object.FieldNBytes v val) hv
    simp only [Object.Read, Object.bytes, hr, hov]
    exact ⟨ha.1, trivial, ha.2.1, ha.2.2⟩
  | StructuredObject fs =>
    have h := StructuredObject.Read_fields_bytes fs b rest
      (by simpa [Object.Accepted] using hv) (by simpa [Object.Representable] using ht)
    simp only [Object.Read, Object.bytes, Object.leaves, Object.Accepted]
    exact h
theorem StructuredObject.Read_fields_bytes (fs : List Object) (b rest : List Nat)
    (hv : StructuredObject.Accepted fs) (ht : StructuredObject.Representable fs = true) :
    (StructuredObject.Read fs ⟨b, StructuredObject.bytes fs ++ rest⟩).thrown = none ∧
    (StructuredObject.Read fs ⟨b, StructuredObject.bytes fs ++ rest⟩).stream
      = ⟨b ++ StructuredObject.bytes fs, rest⟩ ∧
    StructuredObject.leaves (StructuredObject.Read fs ⟨b, StructuredObject.bytes fs ++ rest⟩).object
      = StructuredObject.leaves fs ∧
    StructuredObject.Accepted
      (StructuredObject.Read fs ⟨b, StructuredObject.bytes fs ++ rest⟩).object := by
  cases fs with
  | nil => simp [StructuredObject.Read, StructuredObject.bytes, StructuredObject.Accepted]
  | cons f fs =>
    simp only [StructuredObject.Accepted] at hv
    simp only [StructuredObject.Representable, Bool.and_eq_true] at ht
    have h1 := Object.Read_bytes f b (StructuredObject.bytes fs ++ rest) hv.1 ht.1
    have h3 := Object.Validate_Accepted _ h1.2.2.2
    have h2 := StructuredObject.Read_fields_bytes fs (b ++ f.bytes) rest hv.2 ht.2
    simp only [StructuredObject.Read, StructuredObject.bytes, List.append_assoc] at h1 h2 ⊢
    simp only [h1.1, h1.2.1, h3.1, h2.1, h2.2.1, StructuredObject.leaves, h3.2.1, h1.2.2.1,
      h2.2.2.1, StructuredObject.Accepted, h3.2.2, h2.2.2.2, and_self]
end

mutual
theorem Object.Read_KeepsLength (o : Object) (s : StreamBase) (h : o.KeepsLength) :
    (o.Read s).object.Size = o.Size ∧ (o.Read s).object.KeepsLength := by
  cases o with
  | FieldBase n v val => simp [Object.Read, Object.Validate, Object.Size, Object.KeepsLength]
  | FieldNBytes v val =>
    simp only [Object.KeepsLength] at h
    refine ⟨?_, ?_⟩
    · simp only [Object.Read, Object.Validate, Object.Size, Lambda.run, StreamBase.Read]
      rw [h]
      apply overlay_length
      simp
    · simp only [Object.Read, Object.Validate, Object.KeepsLength, Lambda.next]
      exact h
  | StructuredObject fs =>
    simp only [Object.Read, Object.Size, Object.KeepsLength] at h ⊢
    exact StructuredObject.Read_fields_KeepsLength fs s h
theorem StructuredObject.Read_fields_KeepsLength (fs : List Object) (s : StreamBase)
    (h : StructuredObject.KeepsLength fs) :
    StructuredObject.Size (StructuredObject.Read fs s).object = StructuredObject.Size fs ∧
    StructuredObject.KeepsLength (StructuredObject.Read fs s).object := by
  cases fs with
  | nil => exact ⟨rfl, h⟩
  | cons f fs =>
    simp only [StructuredObject.KeepsLength] at h
    have h1 := Object.Read_KeepsLength f s h.1
    have h2 := Object.Validate_KeepsLength _ h1.2
    simp only [StructuredObject.Read]
    split
    · simp only [StructuredObject.Size, StructuredObject.KeepsLength, h1.1, h1.2, h.2, and_self]
    · split
      · simp only [StructuredObject.Size, StructuredObject.KeepsLength, h2.1, h1.1, h2.2, h.2,
          and_self]
      · have h3 := StructuredObject.Read_fields_KeepsLength fs (f.Read s).stream h.2
        simp only [StructuredObject.Size, StructuredObject.KeepsLength, h2.1, h1.1, h2.2, h3.1,
          h3.2, and_self]
end

mutual
theorem Object.Read_stream (o : Object) (s : StreamBase) (h : (o.Read s).thrown = none) :
    (o.Read s).stream = (s.Read o.Size).2 := by
  cases o with
  | FieldBase n v val => simp [Object.Read, Object.Size]
  | FieldNBytes v val => simp [Object.Read, Object.Size]
  | StructuredObject fs =>
    simp only [Object.Read, Object.Size] at h ⊢
    exact StructuredObject.Read_fields_stream fs s h
theorem StructuredObject.Read_fields_stream (fs : List Object) (s : StreamBase)
    (h : (StructuredObject.Read fs s).thrown = none) :
    (StructuredObject.Read fs s).stream = (s.Read (StructuredObject.Size fs)).2 := by
  cases fs with
  | nil => simp [StructuredObject.Read, StructuredObject.Size, StreamBase.Read_zero]
  | cons f fs =>
    simp only [StructuredObject.Read] at h ⊢
    split at h
    · simp at h
    · split at h
      · simp at h
      · rename_i h1 _ h2
        simp only [h1, h2]
        simp only at h
        rw [StructuredObject.Read_fields_stream fs _ h, Object.Read_stream f s h1,
          StreamBase.Read_Read, StructuredObject.Size]
end

theorem Object.Read_FieldBase_wire (n v x : Nat) (val : Lambda Nat)
    (b rest : List Nat) (hx : x < 256 ^ n) :
    (Object.FieldBase n v val).Read { before := b, after := encodeLE n x ++ rest }
      = { object := Object.FieldBase n (val.run x).value (val.next x)
          stream := { before := b ++ encodeLE n x, after := rest }
          thrown := (val.run x).thrown } := by
  have hr := StreamBase.Read_exact b (encodeLE n x) rest
  rw [encodeLE_length] at hr
  have hov : overlay (encodeLE n x) (encodeLE n v) = encodeLE n x :=
    overlay_full _ _ (by simp [encodeLE_length])
  simp only [Object.Read, Object.Validate, hr, hov, decodeLE_encodeLE n x hx]

/-! ### Headers and the indirect-data block -/

theorem Lambda.run_check {T : Type} (verdict : T → Option Thrown) (value : T) :
    (Lambda.check verdict).run value = { value := value, captured := 0, thrown := verdict value } :=
  rfl

theorem Lambda.next_check {T : Type} (verdict : T → Option Thrown) (value : T) :
    (Lambda.check verdict).next value = Lambda.check verdict :=
  rfl

theorem StructuredObject.Read_cons_check (n v x : Nat) (verdict : Nat → Option Thrown)
    (fields : List Object) (b rest : List Nat) (hx : x < 256 ^ n) :
    (StructuredObject.Read (Object.FieldBase n v (Lambda.check verdict) :: fields)
        { before := b, after := encodeLE n x ++ rest }).thrown
      = match verdict x with
        | some e => some e
        | none =>
          (StructuredObject.Read fields { before := b ++ encodeLE n x, after := rest }).thrown := by
  rw [StructuredObject.Read, Object.Read_FieldBase_wire n v x _ b rest hx]
  simp only [Lambda.run_check, Lambda.next_check, Object.Validate]
  cases verdict x <;> rfl

theorem Object.Validate_Lenient (o : Object) (h : o.Lenient) :
    o.Validate.2 = none ∧ o.Validate.1.Lenient := by
  cases o with
  | FieldBase n v val =>
    simp only [Object.Lenient] at h
    exact ⟨h _ _, by simpa only [Object.Validate, Object.Lenient, Lambda.next] using h⟩
  | FieldNBytes v val =>
    simp only [Object.Lenient] at h
    exact ⟨h _ _, by simpa only [Object.Validate, Object.Lenient, Lambda.next] using h⟩
  | StructuredObject fs => exact ⟨rfl, h⟩

mutual
theorem Object.Read_Lenient (o : Object) (s : StreamBase) (h : o.Lenient) :
    (o.Read s).thrown = none ∧ (o.Read s).object.Lenient := by
  cases o with
  | FieldBase n v val =>
    simp only [Object.Read]
    exact Object.Validate_Lenient _ h
  | FieldNBytes v val =>
    simp only [Object.Read]
    exact Object.Validate_Lenient _ h
  | StructuredObject fs =>
    simp only [Object.Read, Object.Lenient] at h ⊢
    exact StructuredObject.Read_fields_Lenient fs s h
theorem StructuredObject.Read_fields_Lenient (fs : List Object) (s : StreamBase)
    (h : StructuredObject.Lenient fs) :
    (StructuredObject.Read fs s).thrown = none ∧
    StructuredObject.Lenient (StructuredObject.Read fs s).object := by
  cases fs with
  | nil => exact ⟨rfl, h⟩
  | cons f fs =>
    simp only [StructuredObject.Lenient] at h
    have h1 := Object.Read_Lenient f s h.1
    have h2 := Object.Validate_Lenient _ h1.2
    have h3 := StructuredObject.Read_fields_Lenient fs (f.Read s).stream h.2
    simp only [StructuredObject.Read, h1.1, h2.1, h3.1, StructuredObject.Lenient, h2.2, h3.2,
      and_self]
end

theorem Lenient_replicate (o : Object) (h : o.Lenient) (n : Nat) :
    StructuredObject.Lenient (List.replicate n o) := by
  induction n with
  | zero => trivial
  | succ n ih => exact ⟨h, ih⟩

theorem INDIRECT_DATA_DIGEST_Lenient : INDIRECT_DATA_DIGEST.Lenient := by
  simp [INDIRECT_DATA_DIGEST, Object.Lenient, StructuredObject.Lenient, Field4Bytes, Field8Bytes,
    Lambda.check]

theorem INDIRECT_DATA_DIGEST_Read_all (n : Nat) (s : StreamBase) :
    (StructuredObject.Read (List.replicate n INDIRECT_DATA_DIGEST) s).thrown = none :=
  (StructuredObject.Read_fields_Lenient _ s
    (Lenient_replicate _ INDIRECT_DATA_DIGEST_Lenient n)).1

theorem EAPPX_INDIRECT_DATA_head_Read (formatInvalid validationFailed : Thrown)
    (b rest : List Nat) (eappxId digestCount : Nat) (hid : eappxId < 256 ^ 4) :
    ((EAPPX_INDIRECT_DATA.head formatInvalid validationFailed).Read
        { before := b, after := encodeLE 4 eappxId ++ digestCount :: rest }).thrown
      = if eappxId = INDIRECT_DATA_ID then
          (if MIN_DIGEST_COUNT ≤ digestCount ∧ digestCount ≤ MAX_DIGEST_COUNT then none
           else some validationFailed)
        else some formatInvalid := by
  have hw := Object.Read_FieldBase_wire 4 0 eappxId
    (Lambda.check (fun eappxId =>
      if eappxId = INDIRECT_DATA_ID then none else some formatInvalid))
    b (digestCount :: rest) hid
  simp only [EAPPX_INDIRECT_DATA.head, Field4Bytes, Object.Read_StructuredObject_thrown]
  rw [StructuredObject.Read, hw]
  simp only [Lambda.run_check]
  by_cases h : eappxId = INDIRECT_DATA_ID
  · simp only [if_pos h, Object.Validate, Lambda.run_check, Lambda.next, StreamBase.Read,
      overlay, decodeLE, List.length_cons, List.length_nil, List.take_succ_cons, List.take_zero,
      List.drop_succ_cons, List.drop_nil, List.append_nil, Nat.mul_zero, Nat.add_zero,
      Lambda.check, Lambda.run, StructuredObject.Read, Object.Read]
    split <;> simp_all
  · simp only [if_neg h]

/-! ### Validator invocations -/

mutual
theorem Object.unvalidated_Size (o : Object) : o.unvalidated.Size = o.Size := by
  cases o with
  | FieldBase n v val => rfl
  | FieldNBytes v val => rfl
  | StructuredObject fs =>
    simp only [Object.unvalidated, Object.Size]
    exact StructuredObject.unvalidated_fields_Size fs
theorem StructuredObject.unvalidated_fields_Size (fs : List Object) :
    StructuredObject.Size (StructuredObject.unvalidated fs) = StructuredObject.Size fs := by
  cases fs with
  | nil => rfl
  | cons f fs =>
    simp only [StructuredObject.unvalidated, StructuredObject.Size, Object.unvalidated_Size f,
      StructuredObject.unvalidated_fields_Size fs]
end

mutual
theorem Object.unvalidated_Lenient (o : Object) : o.unvalidated.Lenient := by
  cases o with
  | FieldBase n v val => intro _ _; rfl
  | FieldNBytes v val => intro _ _; rfl
  | StructuredObject fs =>
    simp only [Object.unvalidated, Object.Lenient]
    exact StructuredObject.unvalidated_fields_Lenient fs
theorem StructuredObject.unvalidated_fields_Lenient (fs : List Object) :
    StructuredObject.Lenient (StructuredObject.unvalidated fs) := by
  cases fs with
  | nil => trivial
  | cons f fs =>
    exact ⟨Object.unvalidated_Lenient f, StructuredObject.unvalidated_fields_Lenient fs⟩
end

theorem Object.unvalidated_Read_thrown (o : Object) (s : StreamBase) :
    (o.unvalidated.Read s).thrown = none :=
  (Object.Read_Lenient _ s (Object.unvalidated_Lenient o)).1

theorem Object.unvalidated_Read_stream (o : Object) (s : StreamBase) :
    (o.unvalidated.Read s).stream = (s.Read o.Size).2 := by
  rw [Object.Read_stream _ s (Object.unvalidated_Read_thrown o s), Object.unvalidated_Size]

theorem Object.unvalidated_Read_Validate (o : Object) (s : StreamBase) :
    (o.unvalidated.Read s).object.Validate = ((o.unvalidated.Read s).object, none) := by
  cases o with
  | FieldBase n v val => rfl
  | FieldNBytes v val => rfl
  | StructuredObject fs => rfl

theorem StructuredObject.Read_cons_unvalidated (f : Object) (fs : List Object)
    (s : StreamBase) :
    StructuredObject.Read (f.unvalidated :: fs) s
      = { object := (f.unvalidated.Read s).object
            :: (StructuredObject.Read fs (s.Read f.Size).2).object
          stream := (StructuredObject.Read fs (s.Read f.Size).2).stream
          thrown := (StructuredObject.Read fs (s.Read f.Size).2).thrown } := by
  simp only [StructuredObject.Read, Object.unvalidated_Read_thrown,
    Object.unvalidated_Read_Validate, Object.unvalidated_Read_stream]

theorem Call.flatMap_pair_append (xs ys : List (Value × Value × Value)) :
    (xs ++ ys).flatMap Call.pair = xs.flatMap Call.pair ++ ys.flatMap Call.pair := by
  simp [List.flatMap_append]

mutual
theorem Object.ReadValidate_pairs (o : Object) (s : StreamBase)
    (h1 : (o.Read s).thrown = none) (h2 : (o.Read s).object.Validate.2 = none) :
    ∃ triples : List (Value × Value × Value),
      o.ReadLog s ++ (o.Read s).object.ValidateLog = triples.flatMap Call.pair ∧
      triples.map (fun t => t.1) = (o.unvalidated.Read s).object.leaves ∧
      triples.map (fun t => t.2.2) = (o.Read s).object.Validate.1.leaves := by
  cases o with
  | FieldBase n v val =>
    simp only [Object.Read, Object.Validate] at h1 h2
    refine ⟨[(Value.integer n (decodeLE (overlay (s.Read n).1 (encodeLE n v))),
      Value.integer n (val.run (decodeLE (overlay (s.Read n).1 (encodeLE n v)))).value,
      Value.integer n ((val.next (decodeLE (overlay (s.Read n).1 (encodeLE n v)))).run
        (val.run (decodeLE (overlay (s.Read n).1 (encodeLE n v)))).value).value)], ?_, ?_, ?_⟩
    · simp only [Object.ReadLog, Object.ValidateLog, Object.Read, Object.Validate, h1, h2,
        List.flatMap_cons, List.flatMap_nil, Call.pair, List.append_nil, List.singleton_append]
    · rfl
    · rfl
  | FieldNBytes v val =>
    simp only [Object.Read, Object.Validate] at h1 h2
    refine ⟨[(Value.buffer (overlay (s.Read v.length).1 v),
      Value.buffer (val.run (overlay (s.Read v.length).1 v)).value,
      Value.buffer ((val.next (overlay (s.Read v.length).1 v)).run
        (val.run (overlay (s.Read v.length).1 v)).value).value)], ?_, ?_, ?_⟩
    · simp only [Object.ReadLog, Object.ValidateLog, Object.Read, Object.Validate, h1, h2,
        List.flatMap_cons, List.flatMap_nil, Call.pair, List.append_nil, List.singleton_append]
    · rfl
    · rfl
  | StructuredObject fs =>
    simp only [Object.Read] at h1
    obtain ⟨t, ht1, ht2, ht3⟩ := StructuredObject.Read_fields_pairs fs s h1
    refine ⟨t, ?_, ?_, ?_⟩
    · simp only [Object.ReadLog, Object.Read, Object.ValidateLog, List.append_nil, ht1]
    · simp only [Object.unvalidated, Object.Read, Object.leaves, ht2]
    · simp only [Object.Read, Object.Validate, Object.leaves, ht3]
theorem StructuredObject.Read_fields_pairs (fs : List Object) (s : StreamBase)
    (h : (StructuredObject.Read fs s).thrown = none) :
    ∃ triples : List (Value × Value × Value),
      StructuredObject.ReadLog fs s = triples.flatMap Call.pair ∧
      triples.map (fun t => t.1)
        = StructuredObject.leaves
            (StructuredObject.Read (StructuredObject.unvalidated fs) s).object ∧
      triples.map (fun t => t.2.2) = StructuredObject.leaves (StructuredObject.Read fs s).object := by
  cases fs with
  | nil => exact ⟨[], rfl, rfl, rfl⟩
  | cons f fs =>
    simp only [StructuredObject.Read] at h
    split at h
    · simp at h
    · split at h
      · simp at h
      · rename_i h1 _ h2
        simp only at h
        obtain ⟨t1, ha1, ha2, ha3⟩ := Object.ReadValidate_pairs f s h1 h2
        obtain ⟨t2, hb1, hb2, hb3⟩ := StructuredObject.Read_fields_pairs fs (f.Read s).stream h
        refine ⟨t1 ++ t2, ?_, ?_, ?_⟩
        · simp only [StructuredObject.ReadLog, h1, h2, Call.flatMap_pair_append, ← ha1, ← hb1,
            List.append_assoc]
        · simp only [StructuredObject.unvalidated, StructuredObject.Read_cons_unvalidated,
            StructuredObject.leaves, List.map_append, ha2, hb2, Object.Read_stream f s h1]
        · simp only [StructuredObject.Read, h1, h2, StructuredObject.leaves, List.map_append,
            ha3, hb3]
end

theorem Object.Validate_ok_iff_log (o : Object) :
    o.Validate.2 = none ↔ ∀ c ∈ o.ValidateLog, c.thrown = none := by
  cases o with
  | FieldBase n v val => simp [Object.Validate, Object.ValidateLog]
  | FieldNBytes v val => simp [Object.Validate, Object.ValidateLog]
  | StructuredObject fs => simp [Object.Validate, Object.ValidateLog]

mutual
theorem Object.Read_ok_iff_log (o : Object) (s : StreamBase) :
    (o.Read s).thrown = none ↔ ∀ c ∈ o.ReadLog s, c.thrown = none := by
  cases o with
  | FieldBase n v val => simp [Object.Read, Object.ReadLog, Object.Validate, Object.ValidateLog]
  | FieldNBytes v val => simp [Object.Read, Object.ReadLog, Object.Validate, Object.ValidateLog]
  | StructuredObject fs =>
    simp only [Object.Read, Object.ReadLog]
    exact StructuredObject.Read_fields_ok_iff_log fs s
theorem StructuredObject.Read_fields_ok_iff_log (fs : List Object) (s : StreamBase) :
    (StructuredObject.Read fs s).thrown = none
      ↔ ∀ c ∈ StructuredObject.ReadLog fs s, c.thrown = none := by
  cases fs with
  | nil => simp [StructuredObject.Read, StructuredObject.ReadLog]
  | cons f fs =>
    have h1 := Object.Read_ok_iff_log f s
    have h2 := Object.Validate_ok_iff_log (f.Read s).object
    have h3 := StructuredObject.Read_fields_ok_iff_log fs (f.Read s).stream
    simp only [StructuredObject.Read, StructuredObject.ReadLog]
    cases hr : (f.Read s).thrown with
    | some e =>
      rw [hr] at h1
      simp only [List.append_nil]
      rw [← h1]
    | none =>
      rw [hr] at h1
      have h1' := h1.mp rfl
      cases hv : (f.Read s).object.Validate.2 with
      | some e =>
        rw [hv] at h2
        simp only [List.append_nil, List.mem_append]
        constructor
        · intro h; cases h
        · intro h
          exact h2.mpr (fun c hc => h c (Or.inr hc))
      | none =>
        rw [hv] at h2
        have h2' := h2.mp rfl
        simp only [List.mem_append]
        rw [h3]
        constructor
        · intro h c hc
          rcases hc with hc | hc | hc
          · exact h1' c hc
          · exact h2' c hc
          · exact h c hc
        · intro h c hc
          exact h c (Or.inr (Or.inr hc))
end

/-! ### Shared children -/

theorem Heap.store_same (heap : Heap) (a : Nat) (o : Object) : (heap.store a o) a = o := by
  simp only [Heap.store, if_true]

theorem Heap.store_other (heap : Heap) (a b : Nat) (o : Object) (h : b ≠ a) :
    (heap.store a o) b = heap b := by
  simp only [Heap.store, if_neg h]

theorem Shared.Validate_frame (f : Shared) (heap : Heap) (b : Nat) (hb : b ∉ f.addresses) :
    (f.Validate heap).1 b = heap b := by
  cases f with
  | ptr a =>
    simp only [Shared.addresses, List.mem_singleton] at hb
    simp only [Shared.Validate, Heap.store_other _ _ _ _ hb]
  | StructuredObject fs => rfl

mutual
theorem Shared.Read_frame (f : Shared) (heap : Heap) (s : StreamBase) (b : Nat)
    (hb : b ∉ f.addresses) : (f.Read heap s).heap b = heap b := by
  cases f with
  | ptr a =>
    simp only [Shared.addresses, List.mem_singleton] at hb
    simp only [Shared.Read, Heap.store_other _ _ _ _ hb]
  | StructuredObject fs =>
    simp only [Shared.addresses] at hb
    simp only [Shared.Read]
    exact Shared.ReadFields_frame fs heap s b hb
theorem Shared.ReadFields_frame (fs : List Shared) (heap : Heap) (s : StreamBase) (b : Nat)
    (hb : b ∉ Shared.addressesOf fs) : (Shared.ReadFields fs heap s).heap b = heap b := by
  cases fs with
  | nil => rfl
  | cons f fs =>
    simp only [Shared.addressesOf, List.mem_append, not_or] at hb
    have h1 := Shared.Read_frame f heap s b hb.1
    have h2 := Shared.Validate_frame f (f.Read heap s).heap b hb.1
    simp only [Shared.ReadFields]
    split
    · exact h1
    · split
      · exact h2.trans h1
      · rw [Shared.ReadFields_frame fs _ _ b hb.2, h2, h1]
end

theorem Shared.Validate_invariant (P : Nat → Object → Prop)
    (hV : ∀ a o, P a o → P a o.Validate.1)
    (f : Shared) (heap : Heap) (h : ∀ a, P a (heap a)) (a : Nat) :
    P a ((f.Validate heap).1 a) := by
  cases f with
  | ptr b =>
    simp only [Shared.Validate, Heap.store]
    split
    · rename_i hab
      subst hab
      exact hV _ _ (h _)
    · exact h a
  | StructuredObject fs => exact h a

mutual
theorem Shared.Read_invariant (P : Nat → Object → Prop)
    (hR : ∀ a o s, P a o → P a (o.Read s).object)
    (hV : ∀ a o, P a o → P a o.Validate.1)
    (f : Shared) (heap : Heap) (s : StreamBase) (h : ∀ a, P a (heap a)) (a : Nat) :
    P a ((f.Read heap s).heap a) := by
  cases f with
  | ptr b =>
    simp only [Shared.Read, Heap.store]
    split
    · rename_i hab
      subst hab
      exact hR _ _ _ (h _)
    · exact h a
  | StructuredObject fs =>
    simp only [Shared.Read]
    exact Shared.ReadFields_invariant P hR hV fs heap s h a
theorem Shared.ReadFields_invariant (P : Nat → Object → Prop)
    (hR : ∀ a o s, P a o → P a (o.Read s).object)
    (hV : ∀ a o, P a o → P a o.Validate.1)
    (fs : List Shared) (heap : Heap) (s : StreamBase) (h : ∀ a, P a (heap a)) (a : Nat) :
    P a ((Shared.ReadFields fs heap s).heap a) := by
  cases fs with
  | nil => exact h a
  | cons f fs =>
    have h1 := Shared.Read_invariant P hR hV f heap s h
    have h2 := Shared.Validate_invariant P hV f _ h1
    simp only [Shared.ReadFields]
    split
    · exact h1 a
    · split
      · exact h2 a
      · exact Shared.ReadFields_invariant P hR hV fs _ _ h2 a
end

mutual
theorem Shared.Size_congr (f : Shared) (heap heap1 : Heap)
    (h : ∀ a, (heap1 a).Size = (heap a).Size) : f.Size heap1 = f.Size heap := by
  cases f with
  | ptr a => exact h a
  | StructuredObject fs =>
    simp only [Shared.Size]
    exact Shared.SizeFields_congr fs heap heap1 h
theorem Shared.SizeFields_congr (fs : List Shared) (heap heap1 : Heap)
    (h : ∀ a, (heap1 a).Size = (heap a).Size) :
    Shared.SizeFields fs heap1 = Shared.SizeFields fs heap := by
  cases fs with
  | nil => rfl
  | cons f fs =>
    simp only [Shared.SizeFields, Shared.Size_congr f heap heap1 h,
      Shared.SizeFields_congr fs heap heap1 h]
end

theorem Shared.Read_Size (f : Shared) (heap : Heap) (s : StreamBase)
    (hk : ∀ a, (heap a).KeepsLength) (a : Nat) :
    ((f.Read heap s).heap a).KeepsLength ∧ ((f.Read heap s).heap a).Size = (heap a).Size :=
  Shared.Read_invariant (fun a o => o.KeepsLength ∧ o.Size = (heap a).Size)
    (fun _ o s h => ⟨(Object.Read_KeepsLength o s h.1).2,
      (Object.Read_KeepsLength o s h.1).1.trans h.2⟩)
    (fun _ o h => ⟨(Object.Validate_KeepsLength o h.1).2,
      (Object.Validate_KeepsLength o h.1).1.trans h.2⟩)
    f heap s (fun a => ⟨hk a, rfl⟩) a

theorem Shared.Validate_Size (f : Shared) (heap : Heap)
    (hk : ∀ a, (heap a).KeepsLength) (a : Nat) :
    ((f.Validate heap).1 a).KeepsLength ∧ ((f.Validate heap).1 a).Size = (heap a).Size :=
  Shared.Validate_invariant (fun a o => o.KeepsLength ∧ o.Size = (heap a).Size)
    (fun _ o h => ⟨(Object.Validate_KeepsLength o h.1).2,
      (Object.Validate_KeepsLength o h.1).1.trans h.2⟩)
    f heap (fun a => ⟨hk a, rfl⟩) a

mutual
theorem Shared.Read_advance (f : Shared) (heap : Heap) (s : StreamBase)
    (hk : ∀ a, (heap a).KeepsLength) (h : (f.Read heap s).thrown = none) :
    (f.Read heap s).stream = (s.Read (f.Size heap)).2 := by
  cases f with
  | ptr a =>
    simp only [Shared.Read] at h ⊢
    exact Object.Read_stream _ s h
  | StructuredObject fs =>
    simp only [Shared.Read, Shared.Size] at h ⊢
    exact Shared.ReadFields_advance fs heap s hk h
theorem Shared.ReadFields_advance (fs : List Shared) (heap : Heap) (s : StreamBase)
    (hk : ∀ a, (heap a).KeepsLength) (h : (Shared.ReadFields fs heap s).thrown = none) :
    (Shared.ReadFields fs heap s).stream = (s.Read (Shared.SizeFields fs heap)).2 := by
  cases fs with
  | nil => simp only [Shared.ReadFields, Shared.SizeFields, StreamBase.Read_zero]
  | cons f fs =>
    simp only [Shared.ReadFields] at h ⊢
    split at h
    · simp at h
    · split at h
      · simp at h
      · rename_i h1 _ h2
        have hk1 := fun a => (Shared.Read_Size f heap s hk a)
        have hk2 := fun a => (Shared.Validate_Size f (f.Read heap s).heap (fun a => (hk1 a).1) a)
        rw [Shared.ReadFields_advance fs _ _ (fun a => (hk2 a).1) h,
          Shared.Read_advance f heap s hk h1, StreamBase.Read_Read, Shared.SizeFields,
          Shared.SizeFields_congr fs heap _ (fun a => (hk2 a).2.trans (hk1 a).2)]
end

theorem Object.Validate_KeepsValue (o : Object) (h : o.KeepsValue) :
    o.Validate.1.leaves = o.leaves ∧ o.Validate.1.KeepsValue := by
  cases o with
  | FieldBase n v val =>
    simp only [Object.KeepsValue] at h
    refine ⟨?_, ?_⟩
    · simp only [Object.Validate, Object.leaves, Lambda.run, h]
    · simpa only [Object.Validate, Object.KeepsValue, Lambda.next] using h
  | FieldNBytes v val =>
    simp only [Object.KeepsValue] at h
    refine ⟨?_, ?_⟩
    · simp only [Object.Validate, Object.leaves, Lambda.run, h]
    · simpa only [Object.Validate, Object.KeepsValue, Lambda.next] using h
  | StructuredObject fs => exact ⟨rfl, h⟩

mutual
theorem Object.Read_KeepsValue (o : Object) (s : StreamBase) (h : o.KeepsValue) :
    (o.Read s).object.KeepsValue := by
  cases o with
  | FieldBase n v val =>
    simp only [Object.Read]
    exact (Object.Validate_KeepsValue _ h).2
  | FieldNBytes v val =>
    simp only [Object.Read]
    exact (Object.Validate_KeepsValue _ h).2
  | StructuredObject fs =>
    simp only [Object.Read, Object.KeepsValue] at h ⊢
    exact StructuredObject.Read_fields_KeepsValue fs s h
theorem StructuredObject.Read_fields_KeepsValue (fs : List Object) (s : StreamBase)
    (h : StructuredObject.KeepsValue fs) :
    StructuredObject.KeepsValue (StructuredObject.Read fs s).object := by
  cases fs with
  | nil => exact h
  | cons f fs =>
    simp only [StructuredObject.KeepsValue] at h
    have h1 := Object.Read_KeepsValue f s h.1
    have h2 := (Object.Validate_KeepsValue _ h1).2
    have h3 := StructuredObject.Read_fields_KeepsValue fs (f.Read s).stream h.2
    simp only [StructuredObject.Read]
    split
    · exact ⟨h1, h.2⟩
    · split
      · exact ⟨h2, h.2⟩
      · exact ⟨h2, h3⟩
end

theorem Object.Read_leaves_field (o : Object) (s : StreamBase) (hf : o.isField = true)
    (h : o.KeepsValue) : (o.Read s).object.leaves = (o.unvalidated.Read s).object.leaves := by
  cases o with
  | FieldBase n v val =>
    simp only [Object.KeepsValue] at h
    simp only [Object.Read, Object.unvalidated, Object.Validate, Object.leaves, Lambda.run, h,
      Lambda.check]
  | FieldNBytes v val =>
    simp only [Object.KeepsValue] at h
    simp only [Object.Read, Object.unvalidated, Object.Validate, Object.leaves, Lambda.run, h,
      Lambda.check]
  | StructuredObject fs => simp [Object.isField] at hf

mutual
theorem Object.Read_leaves (o : Object) (s : StreamBase) (h : o.KeepsValue)
    (hok : (o.Read s).thrown = none) :
    (o.Read s).object.leaves = (o.unvalidated.Read s).object.leaves := by
  cases o with
  | FieldBase n v val => exact Object.Read_leaves_field _ s rfl h
  | FieldNBytes v val => exact Object.Read_leaves_field _ s rfl h
  | StructuredObject fs =>
    simp only [Object.Read, Object.KeepsValue, Object.unvalidated, Object.leaves] at h hok ⊢
    exact StructuredObject.Read_fields_leaves fs s h hok
theorem StructuredObject.Read_fields_leaves (fs : List Object) (s : StreamBase)
    (h : StructuredObject.KeepsValue fs) (hok : (StructuredObject.Read fs s).thrown = none) :
    StructuredObject.leaves (StructuredObject.Read fs s).object
      = StructuredObject.leaves
          (StructuredObject.Read (StructuredObject.unvalidated fs) s).object := by
  cases fs with
  | nil => rfl
  | cons f fs =>
    simp only [StructuredObject.KeepsValue] at h
    simp only [StructuredObject.Read] at hok
    split at hok
    · simp at hok
    · split at hok
      · simp at hok
      · rename_i h1 _ h2
        simp only at hok
        have ha := Object.Read_leaves f s h.1 h1
        have hb := (Object.Validate_KeepsValue _ (Object.Read_KeepsValue f s h.1)).1
        have hc := StructuredObject.Read_fields_leaves fs (f.Read s).stream h.2 hok
        rw [StructuredObject.unvalidated, StructuredObject.Read_cons_unvalidated,
          ← Object.Read_stream f s h1, StructuredObject.Read]
        simp only [h1, h2, StructuredObject.leaves, hb, ha, hc]
end

mutual
theorem Shared.load_congr (f : Shared) (heap heap1 : Heap)
    (h : ∀ a ∈ f.addresses, heap1 a = heap a) : f.load heap1 = f.load heap := by
  cases f with
  | ptr a => exact h a (by simp [Shared.addresses])
  | StructuredObject fs =>
    simp only [Shared.load]
    rw [Shared.loadFields_congr fs heap heap1 h]
theorem Shared.loadFields_congr (fs : List Shared) (heap heap1 : Heap)
    (h : ∀ a ∈ Shared.addressesOf fs, heap1 a = heap a) :
    Shared.loadFields fs heap1 = Shared.loadFields fs heap := by
  cases fs with
  | nil => rfl
  | cons f fs =>
    simp only [Shared.addressesOf, List.mem_append] at h
    simp only [Shared.loadFields]
    rw [Shared.load_congr f heap heap1 (fun a ha => h a (Or.inl ha)),
      Shared.loadFields_congr fs heap heap1 (fun a ha => h a (Or.inr ha))]
end

theorem Shared.Validate_load (f : Shared) (heap : Heap) :
    (f.Validate heap).2 = (f.load heap).Validate.2 ∧
    f.load (f.Validate heap).1 = (f.load heap).Validate.1 := by
  cases f with
  | ptr a => simp only [Shared.Validate, Shared.load, Heap.store_same, and_self]
  | StructuredObject fs => exact ⟨rfl, rfl⟩

mutual
theorem Shared.Read_load (f : Shared) (heap : Heap) (s : StreamBase)
    (hn : f.addresses.Nodup) :
    (f.Read heap s).thrown = ((f.load heap).Read s).thrown ∧
    (f.Read heap s).stream = ((f.load heap).Read s).stream ∧
    f.load (f.Read heap s).heap = ((f.load heap).Read s).object := by
  cases f with
  | ptr a => simp only [Shared.Read, Shared.load, Heap.store_same, and_self]
  | StructuredObject fs =>
    simp only [Shared.addresses] at hn
    have h := Shared.ReadFields_load fs heap s hn
    simp only [Shared.Read, Shared.load, Object.Read, h.1, h.2.1, h.2.2, and_self]
theorem Shared.ReadFields_load (fs : List Shared) (heap : Heap) (s : StreamBase)
    (hn : (Shared.addressesOf fs).Nodup) :
    (Shared.ReadFields fs heap s).thrown
      = (StructuredObject.Read (Shared.loadFields fs heap) s).thrown ∧
    (Shared.ReadFields fs heap s).stream
      = (StructuredObject.Read (Shared.loadFields fs heap) s).stream ∧
    Shared.loadFields fs (Shared.ReadFields fs heap s).heap
      = (StructuredObject.Read (Shared.loadFields fs heap) s).object := by
  cases fs with
  | nil => exact ⟨rfl, rfl, rfl⟩
  | cons f fs =>
    simp only [Shared.addressesOf] at hn
    have hn1 := (List.nodup_append.mp hn).1
    have hn2 := (List.nodup_append.mp hn).2.1
    have hd : ∀ a ∈ Shared.addressesOf fs, a ∉ f.addresses :=
      fun a ha hf => (List.nodup_append.mp hn).2.2 hf ha
    have h1 := Shared.Read_load f heap s hn1
    have h2 := Shared.Validate_load f (f.Read heap s).heap
    have hfr : ∀ a ∈ Shared.addressesOf fs, (f.Read heap s).heap a = heap a :=
      fun a ha => Shared.Read_frame f heap s a (hd a ha)
    have hfv : ∀ a ∈ Shared.addressesOf fs, (f.Validate (f.Read heap s).heap).1 a = heap a :=
      fun a ha => (Shared.Validate_frame f _ a (hd a ha)).trans (hfr a ha)
    rw [h1.2.2] at h2
    simp only [Shared.ReadFields, Shared.loadFields, StructuredObject.Read]
    rw [← h1.1, ← h1.2.1, ← h2.1]
    cases hr : (f.Read heap s).thrown with
    | some e =>
      simp only [true_and]
      rw [h1.2.2, Shared.loadFields_congr fs heap _ hfr]
    | none =>
      simp only
      cases hv : (f.Validate (f.Read heap s).heap).2 with
      | some e =>
        simp only [true_and]
        rw [h2.2, Shared.loadFields_congr fs heap _ hfv]
      | none =>
        simp only
        have h3 := Shared.ReadFields_load fs (f.Validate (f.Read heap s).heap).1
          (f.Read heap s).stream hn2
        rw [Shared.loadFields_congr fs heap _ hfv] at h3
        refine ⟨h3.1, h3.2.1, ?_⟩
        rw [h3.2.2, Shared.load_congr f _ _
          (fun a ha => Shared.ReadFields_frame fs _ _ a (fun hfs => hd a hfs ha)), h2.2]
end

/-! ### Pack and Unpack -/

theorem perform_thrown (F : Faults) (op : Op) (effect : World → World) (w : World) :
    (perform F op effect w).2 = F.inject op := by
  unfold perform
  cases F.inject op <;> rfl

theorem perform_trace (F : Faults) (op : Op) (effect : World → World) (w : World) :
    (perform F op effect w).1.trace = w.trace ++ [op] := by
  unfold perform
  cases F.inject op <;> rfl

theorem perform_ok (F : Faults) (op : Op) (effect : World → World) (w : World)
    (h : F.inject op = none) :
    perform F op effect w = ({ effect w with trace := w.trace ++ [op] }, none) := by
  unfold perform
  rw [h]

theorem andThen_ok (r : World × Option Thrown) (next : World → World × Option Thrown)
    (h : r.2 = none) : andThen r next = next r.1 := by
  unfold andThen
  rw [h]

theorem andThen_throw (r : World × Option Thrown) (next : World → World × Option Thrown)
    (e : Thrown) (h : r.2 = some e) : andThen r next = (r.1, some e) := by
  unfold andThen
  rw [h]

theorem andThen_thrown_none (r : World × Option Thrown)
    (next : World → World × Option Thrown) (h : (andThen r next).2 = none) :
    r.2 = none ∧ (next r.1).2 = none := by
  unfold andThen at h
  cases hr : r.2 with
  | none => rw [hr] at h; exact ⟨rfl, h⟩
  | some e => rw [hr] at h; simp at h

theorem commits_perform (F : Faults) (op : Op) (effect : World → World) (w : World)
    (hop : op ≠ Op.zip_CommitChanges) :
    (perform F op effect w).1.trace.count Op.zip_CommitChanges
      = w.trace.count Op.zip_CommitChanges := by
  rw [perform_trace, List.count_append, List.count_singleton]
  simp [hop]

theorem commits_andThen (r : World × Option Thrown) (next : World → World × Option Thrown)
    (n : Nat) (hr : r.1.trace.count Op.zip_CommitChanges = n)
    (hnext : ∀ w, w.trace.count Op.zip_CommitChanges = n →
      (next w).1.trace.count Op.zip_CommitChanges = n) :
    (andThen r next).1.trace.count Op.zip_CommitChanges = n := by
  unfold andThen
  cases r.2 with
  | none => exact hnext _ hr
  | some e => exact hr

theorem PackAppx.loop_commits (F : Faults) (directory : Entries) (fileNames : List String)
    (w : World) :
    (PackAppx.loop F directory fileNames w).1.trace.count Op.zip_CommitChanges
      = w.trace.count Op.zip_CommitChanges := by
  induction fileNames generalizing w with
  | nil => rfl
  | cons fileName fileNames ih =>
    unfold PackAppx.loop
    apply commits_andThen _ _ _ (commits_perform _ _ _ _ (by simp))
    intro w1 h1
    cases lookup fileName directory with
    | none => exact h1
    | some bytes =>
      apply commits_andThen _ _ _ ((commits_perform _ _ _ _ (by simp)).trans h1)
      intro w2 h2
      apply commits_andThen _ _ _ ((commits_perform _ _ _ _ (by simp)).trans h2)
      intro w3 h3
      rw [ih, h3]

theorem PackAppx.loop_trace (F : Faults) (directory : Entries) (fileNames : List String)
    (w : World) (h : (PackAppx.loop F directory fileNames w).2 = none) :
    (PackAppx.loop F directory fileNames w).1.trace
      = w.trace ++ fileNames.flatMap PackAppx.steps := by
  induction fileNames generalizing w with
  | nil => simp [PackAppx.loop]
  | cons fileName fileNames ih =>
    unfold PackAppx.loop at h ⊢
    obtain ⟨h1, h⟩ := andThen_thrown_none _ _ h
    rw [andThen_ok _ _ h1]
    cases hl : lookup fileName directory with
    | none => rw [hl] at h; simp at h
    | some bytes =>
      rw [hl] at h
      simp only at h ⊢
      obtain ⟨h2, h⟩ := andThen_thrown_none _ _ h
      rw [andThen_ok _ _ h2]
      obtain ⟨h3, h⟩ := andThen_thrown_none _ _ h
      rw [andThen_ok _ _ h3, ih _ h]
      simp [perform_trace, PackAppx.steps]

theorem PackAppx.loop_throws (F : Faults) (directory : Entries) (fileNames : List String)
    (w : World)
    (h : ∃ fileName ∈ fileNames, ∃ op ∈ PackAppx.steps fileName, F.inject op ≠ none) :
    (PackAppx.loop F directory fileNames w).2 ≠ none := by
  intro hnone
  induction fileNames generalizing w with
  | nil => simp at h
  | cons fileName fileNames ih =>
    unfold PackAppx.loop at hnone
    obtain ⟨h1, hnone⟩ := andThen_thrown_none _ _ hnone
    cases hl : lookup fileName directory with
    | none => rw [hl] at hnone; simp at hnone
    | some bytes =>
      rw [hl] at hnone
      simp only at hnone
      obtain ⟨h2, hnone⟩ := andThen_thrown_none _ _ hnone
      obtain ⟨h3, hnone⟩ := andThen_thrown_none _ _ hnone
      rw [perform_thrown] at h1 h2 h3
      obtain ⟨n, hn, op, hop, hf⟩ := h
      rcases List.mem_cons.mp hn with rfl | hn
      · simp only [PackAppx.steps, List.mem_cons, List.mem_singleton, List.not_mem_nil,
          or_false] at hop
        rcases hop with rfl | rfl | rfl
        · exact hf h1
        · exact hf h2
        · exact hf h3
      · exact ih _ ⟨n, hn, op, hop, hf⟩ hnone

theorem ResultOf₂_world {σ : Type} (X : Exceptions) (source destination : String)
    (lambda : σ → σ × Option Thrown) (world : σ) :
    (ResultOf₂ X (some source) (some destination) lambda world).1 = (lambda world).1 := by
  simp only [ResultOf₂, reduceCtorEq, or_self, if_false]
  split <;> rfl

theorem PackAppx.lambda_eq (F : Faults) (from_ to_ : String) (w : World) (directory : Entries)
    (hdir : lookup from_ w.directories = some directory)
    (h1 : F.inject (Op.DirectoryObject from_) = none)
    (h2 : F.inject (Op.FileStream to_ Mode.WRITE) = none)
    (h3 : F.inject Op.ZipObject = none)
    (h4 : F.inject Op.directory_GetFileNames = none) :
    PackAppx.lambda F from_ to_ w
      = andThen (PackAppx.loop F directory (directory.map Prod.fst)
          { archives := upsert to_ [] w.archives, directories := w.directories, staged := []
            trace := w.trace ++ PackAppx.prologue from_ to_ })
          (fun w => perform F Op.zip_CommitChanges
            (fun w => { w with archives := upsert to_ w.staged w.archives }) w) := by
  unfold PackAppx.lambda
  rw [perform_ok _ _ _ _ h1, andThen_ok _ _ rfl]
  simp only [id]
  rw [perform_ok _ _ _ _ h2, andThen_ok _ _ rfl]
  simp only
  rw [perform_ok _ _ _ _ h3, andThen_ok _ _ rfl]
  simp only
  rw [perform_ok _ _ _ _ h4, andThen_ok _ _ rfl]
  simp only [id, hdir, PackAppx.prologue, List.append_assoc, List.cons_append, List.nil_append]

theorem PackAppx.lambda_entry_fault (F : Faults) (from_ to_ : String) (w : World)
    (directory : Entries) (hdir : lookup from_ w.directories = some directory)
    (h : ∃ fileName ∈ directory.map Prod.fst, ∃ op ∈ PackAppx.steps fileName,
      F.inject op ≠ none) :
    (PackAppx.lambda F from_ to_ w).2 ≠ none ∧
    (PackAppx.lambda F from_ to_ w).1.trace.count Op.zip_CommitChanges
      = w.trace.count Op.zip_CommitChanges := by
  cases h1 : F.inject (Op.DirectoryObject from_) with
  | some e =>
    unfold PackAppx.lambda
    rw [andThen_throw _ _ e (by rw [perform_thrown]; exact h1)]
    exact ⟨by simp, commits_perform _ _ _ _ (by simp)⟩
  | none =>
    cases h2 : F.inject (Op.FileStream to_ Mode.WRITE) with
    | some e =>
      unfold PackAppx.lambda
      rw [perform_ok _ _ _ _ h1, andThen_ok _ _ rfl,
        andThen_throw _ _ e (by rw [perform_thrown]; exact h2)]
      refine ⟨by simp, ?_⟩
      rw [commits_perform _ _ _ _ (by simp)]
      simp [List.count_append]
    | none =>
      cases h3 : F.inject Op.ZipObject with
      | some e =>
        unfold PackAppx.lambda
        rw [perform_ok _ _ _ _ h1, andThen_ok _ _ rfl, perform_ok _ _ _ _ h2,
          andThen_ok _ _ rfl, andThen_throw _ _ e (by rw [perform_thrown]; exact h3)]
        refine ⟨by simp, ?_⟩
        rw [commits_perform _ _ _ _ (by simp)]
        simp [List.count_append]
      | none =>
        cases h4 : F.inject Op.directory_GetFileNames with
        | some e =>
          unfold PackAppx.lambda
          rw [perform_ok _ _ _ _ h1, andThen_ok _ _ rfl, perform_ok _ _ _ _ h2,
            andThen_ok _ _ rfl, perform_ok _ _ _ _ h3, andThen_ok _ _ rfl,
            andThen_throw _ _ e (by rw [perform_thrown]; exact h4)]
          refine ⟨by simp, ?_⟩
          rw [commits_perform _ _ _ _ (by simp)]
          simp [List.count_append]
        | none =>
          rw [PackAppx.lambda_eq F from_ to_ w directory hdir h1 h2 h3 h4]
          have ht := PackAppx.loop_throws F directory (directory.map Prod.fst)
            { archives := upsert to_ [] w.archives, directories := w.directories, staged := []
              trace := w.trace ++ PackAppx.prologue from_ to_ } h
          obtain ⟨e, he⟩ := Option.ne_none_iff_exists'.mp ht
          rw [andThen_throw _ _ e he]
          refine ⟨by simp, ?_⟩
          rw [PackAppx.loop_commits]
          simp [List.count_append, PackAppx.prologue]

theorem PackAppx.lambda_trace (F : Faults) (from_ to_ : String) (w : World)
    (directory : Entries) (hdir : lookup from_ w.directories = some directory)
    (h : (PackAppx.lambda F from_ to_ w).2 = none) :
    (PackAppx.lambda F from_ to_ w).1.trace
      = w.trace ++ PackAppx.prologue from_ to_
          ++ (directory.map Prod.fst).flatMap PackAppx.steps ++ [Op.zip_CommitChanges] := by
  have h0 := h
  unfold PackAppx.lambda at h0
  obtain ⟨h1, h0⟩ := andThen_thrown_none _ _ h0
  obtain ⟨h2, h0⟩ := andThen_thrown_none _ _ h0
  obtain ⟨h3, h0⟩ := andThen_thrown_none _ _ h0
  obtain ⟨h4, _⟩ := andThen_thrown_none _ _ h0
  rw [perform_thrown] at h1 h2 h3 h4
  rw [PackAppx.lambda_eq F from_ to_ w directory hdir h1 h2 h3 h4] at h ⊢
  obtain ⟨hl, _⟩ := andThen_thrown_none _ _ h
  rw [andThen_ok _ _ hl, perform_trace, PackAppx.loop_trace _ _ _ _ hl]

theorem lookup_upsert_self {β : Type} (key : String) (value : β) (l : List (String × β)) :
    lookup key (upsert key value l) = some value := by
  induction l with
  | nil => simp [upsert, lookup]
  | cons kv l ih =>
    obtain ⟨k, v⟩ := kv
    by_cases h : k = key
    · simp [upsert, lookup, h]
    · simp [upsert, lookup, h, ih]

theorem upsert_new {β : Type} (key : String) (value : β) (l : List (String × β))
    (h : key ∉ l.map Prod.fst) : upsert key value l = l ++ [(key, value)] := by
  induction l with
  | nil => rfl
  | cons kv l ih =>
    obtain ⟨k, v⟩ := kv
    simp only [List.map_cons, List.mem_cons, not_or] at h
    have hk : ¬ k = key := fun hk => h.1 hk.symm
    simp [upsert, hk, ih h.2]

theorem upsert_last {β : Type} (key : String) (value value1 : β) (l : List (String × β))
    (h : key ∉ l.map Prod.fst) :
    upsert key value (l ++ [(key, value1)]) = l ++ [(key, value)] := by
  induction l with
  | nil => simp [upsert]
  | cons kv l ih =>
    obtain ⟨k, v⟩ := kv
    simp only [List.map_cons, List.mem_cons, not_or] at h
    have hk : ¬ k = key := fun hk => h.1 hk.symm
    simp [upsert, hk, ih h.2]

theorem lookup_of_mem {β : Type} (l : List (String × β)) (hn : (l.map Prod.fst).Nodup)
    (key : String) (value : β) (h : (key, value) ∈ l) : lookup key l = some value := by
  induction l with
  | nil => simp at h
  | cons kv l ih =>
    obtain ⟨k, v⟩ := kv
    simp only [List.map_cons, List.nodup_cons] at hn
    rcases List.mem_cons.mp h with heq | hmem
    · injection heq with h1 h2
      subst h1 h2
      simp [lookup]
    · have hk : ¬ k = key := by
        intro hk
        subst hk
        exact hn.1 (List.mem_map_of_mem Prod.fst hmem)
      simp [lookup, hk, ih hn.2 hmem]

theorem andThen_thrown_some (r : World × Option Thrown)
    (next : World → World × Option Thrown) (e : Thrown) (h : (andThen r next).2 = some e) :
    r.2 = some e ∨ (r.2 = none ∧ (next r.1).2 = some e) := by
  unfold andThen at h
  cases hr : r.2 with
  | none => rw [hr] at h; exact Or.inr ⟨rfl, h⟩
  | some e1 => rw [hr] at h; exact Or.inl h

theorem UnpackAppx.unpack_loop_ok (F : Faults) (to_ : String) (zip rest d0 : Entries) (w : World)
    (hz : ∀ e ∈ rest, lookup e.1 zip = some e.2)
    (hn : (rest.map Prod.fst).Nodup)
    (hd : ∀ e ∈ rest, e.1 ∉ d0.map Prod.fst)
    (hw : lookup to_ w.directories = some d0)
    (h : (UnpackAppx.loop F to_ zip (rest.map Prod.fst) w).2 = none) :
    lookup to_ (UnpackAppx.loop F to_ zip (rest.map Prod.fst) w).1.directories
        = some (d0 ++ rest) ∧
    (UnpackAppx.loop F to_ zip (rest.map Prod.fst) w).1.archives = w.archives := by
  induction rest generalizing d0 w with
  | nil => simpa [UnpackAppx.loop] using hw
  | cons nb rest ih =>
    obtain ⟨n, b⟩ := nb
    simp only [List.map_cons] at h hn ⊢
    unfold UnpackAppx.loop at h ⊢
    obtain ⟨h1, h⟩ := andThen_thrown_none _ _ h
    rw [andThen_ok _ _ h1]
    rw [perform_thrown] at h1
    rw [perform_ok _ _ _ _ h1] at h ⊢
    have hzn : lookup n zip = some b := hz (n, b) (List.mem_cons_self _ _)
    simp only [hzn] at h ⊢
    obtain ⟨h2, h⟩ := andThen_thrown_none _ _ h
    rw [andThen_ok _ _ h2]
    rw [perform_thrown] at h2
    rw [perform_ok _ _ _ _ h2] at h ⊢
    obtain ⟨h3, h⟩ := andThen_thrown_none _ _ h
    rw [andThen_ok _ _ h3]
    rw [perform_thrown] at h3
    rw [perform_ok _ _ _ _ h3] at h ⊢
    obtain ⟨h4, h⟩ := andThen_thrown_none _ _ h
    rw [andThen_ok _ _ h4]
    rw [perform_thrown] at h4
    rw [perform_ok _ _ _ _ h4] at h ⊢
    have hnd : n ∉ d0.map Prod.fst := hd (n, b) (List.mem_cons_self _ _)
    have hn' := List.nodup_cons.mp hn
    have hres := ih (d0 ++ [(n, b)]) _ (fun e he => hz e (List.mem_cons_of_mem _ he)) hn'.2
      (by
        intro e he
        simp only [List.map_append, List.map_cons, List.map_nil, List.mem_append,
          List.mem_singleton, not_or]
        refine ⟨hd e (List.mem_cons_of_mem _ he), ?_⟩
        intro heq
        exact hn'.1 (heq ▸ List.mem_map_of_mem Prod.fst he))
      (by
        simp only [id, World.putFile, hw, Option.getD_some, lookup_upsert_self,
          upsert_new n [] d0 hnd, upsert_last n b [] d0 hnd])
      h
    refine ⟨?_, ?_⟩
    · rw [hres.1]; simp
    · rw [hres.2]; simp [World.putFile]

theorem PackAppx.loop_ok (F : Faults) (directory rest staged0 : Entries) (w : World)
    (hz : ∀ e ∈ rest, lookup e.1 directory = some e.2)
    (hn : (rest.map Prod.fst).Nodup)
    (hd : ∀ e ∈ rest, e.1 ∉ staged0.map Prod.fst)
    (hw : w.staged = staged0)
    (h : (PackAppx.loop F directory (rest.map Prod.fst) w).2 = none) :
    (PackAppx.loop F directory (rest.map Prod.fst) w).1.staged = staged0 ++ rest ∧
    (PackAppx.loop F directory (rest.map Prod.fst) w).1.archives = w.archives := by
  induction rest generalizing staged0 w with
  | nil => simpa [PackAppx.loop] using hw
  | cons nb rest ih =>
    obtain ⟨n, b⟩ := nb
    simp only [List.map_cons] at h hn ⊢
    unfold PackAppx.loop at h ⊢
    obtain ⟨h1, h⟩ := andThen_thrown_none _ _ h
    rw [andThen_ok _ _ h1]
    rw [perform_thrown] at h1
    rw [perform_ok _ _ _ _ h1] at h ⊢
    have hzn : lookup n directory = some b := hz (n, b) (List.mem_cons_self _ _)
    simp only [hzn] at h ⊢
    obtain ⟨h2, h⟩ := andThen_thrown_none _ _ h
    rw [andThen_ok _ _ h2]
    rw [perform_thrown] at h2
    rw [perform_ok _ _ _ _ h2] at h ⊢
    obtain ⟨h3, h⟩ := andThen_thrown_none _ _ h
    rw [andThen_ok _ _ h3]
    rw [perform_thrown] at h3
    rw [perform_ok _ _ _ _ h3] at h ⊢
    have hnd : n ∉ staged0.map Prod.fst := hd (n, b) (List.mem_cons_self _ _)
    have hn' := List.nodup_cons.mp hn
    have hres := ih (staged0 ++ [(n, b)]) _ (fun e he => hz e (List.mem_cons_of_mem _ he)) hn'.2
      (by
        intro e he
        simp only [List.map_append, List.map_cons, List.map_nil, List.mem_append,
          List.mem_singleton, not_or]
        refine ⟨hd e (List.mem_cons_of_mem _ he), ?_⟩
        intro heq
        exact hn'.1 (heq ▸ List.mem_map_of_mem Prod.fst he))
      (by
        simp only [id, World.stage, hw, upsert_new n [] staged0 hnd,
          upsert_last n b [] staged0 hnd])
      h
    refine ⟨?_, ?_⟩
    · rw [hres.1]; simp
    · rw [hres.2]; simp [World.stage]

theorem UnpackAppx.unpack_lambda_ok (F : Faults) (from_ to_ : String) (w : World) (A : Entries)
    (hA : lookup from_ w.archives = some A) (hn : (A.map Prod.fst).Nodup)
    (hdir : lookup to_ w.directories = some [])
    (h : (UnpackAppx.lambda F from_ to_ w).2 = none) :
    lookup to_ (UnpackAppx.lambda F from_ to_ w).1.directories = some A ∧
    (UnpackAppx.lambda F from_ to_ w).1.archives = w.archives := by
  unfold UnpackAppx.lambda at h ⊢
  obtain ⟨h1, h⟩ := andThen_thrown_none _ _ h
  rw [andThen_ok _ _ h1]
  rw [perform_thrown] at h1
  rw [perform_ok _ _ _ _ h1] at h ⊢
  obtain ⟨h2, h⟩ := andThen_thrown_none _ _ h
  rw [andThen_ok _ _ h2]
  rw [perform_thrown] at h2
  rw [perform_ok _ _ _ _ h2] at h ⊢
  simp only [id, hA] at h ⊢
  obtain ⟨h3, h⟩ := andThen_thrown_none _ _ h
  rw [andThen_ok _ _ h3]
  rw [perform_thrown] at h3
  rw [perform_ok _ _ _ _ h3] at h ⊢
  obtain ⟨h4, h⟩ := andThen_thrown_none _ _ h
  rw [andThen_ok _ _ h4]
  rw [perform_thrown] at h4
  rw [perform_ok _ _ _ _ h4] at h ⊢
  have hres := UnpackAppx.unpack_loop_ok F to_ A A [] _
    (fun e he => lookup_of_mem A hn e.1 e.2 he) hn (by simp) (by simpa using hdir) h
  simpa using hres

theorem PackAppx.lambda_ok (F : Faults) (from_ to_ : String) (w : World) (D : Entries)
    (hD : lookup from_ w.directories = some D) (hn : (D.map Prod.fst).Nodup)
    (h : (PackAppx.lambda F from_ to_ w).2 = none) :
    lookup to_ (PackAppx.lambda F from_ to_ w).1.archives = some D := by
  have h0 := h
  unfold PackAppx.lambda at h0
  obtain ⟨h1, h0⟩ := andThen_thrown_none _ _ h0
  obtain ⟨h2, h0⟩ := andThen_thrown_none _ _ h0
  obtain ⟨h3, h0⟩ := andThen_thrown_none _ _ h0
  obtain ⟨h4, _⟩ := andThen_thrown_none _ _ h0
  rw [perform_thrown] at h1 h2 h3 h4
  rw [PackAppx.lambda_eq F from_ to_ w D hD h1 h2 h3 h4] at h ⊢
  obtain ⟨hl, hc⟩ := andThen_thrown_none _ _ h
  rw [andThen_ok _ _ hl]
  rw [perform_thrown] at hc
  rw [perform_ok _ _ _ _ hc]
  have hres := PackAppx.loop_ok F D D [] _
    (fun e he => lookup_of_mem D hn e.1 e.2 he) hn (by simp) rfl hl
  simp only [hres.1, List.nil_append, lookup_upsert_self]

theorem andThen_origin (P : Thrown → Prop) (r : World × Option Thrown)
    (next : World → World × Option Thrown)
    (hr : ∀ e, r.2 = some e → P e) (hnext : ∀ w e, (next w).2 = some e → P e)
    (e : Thrown) (h : (andThen r next).2 = some e) : P e := by
  rcases andThen_thrown_some r next e h with h1 | ⟨_, h2⟩
  · exact hr e h1
  · exact hnext _ e h2

theorem perform_origin (F : Faults) (op : Op) (effect : World → World) (w : World)
    (e : Thrown) (h : (perform F op effect w).2 = some e) :
    e = F.missing ∨ ∃ op, F.inject op = some e := by
  rw [perform_thrown] at h
  exact Or.inr ⟨op, h⟩

theorem UnpackAppx.unpack_loop_origin (F : Faults) (to_ : String) (zip : Entries)
    (fileNames : List String) (w : World) (e : Thrown)
    (h : (UnpackAppx.loop F to_ zip fileNames w).2 = some e) :
    e = F.missing ∨ ∃ op, F.inject op = some e := by
  induction fileNames generalizing w e with
  | nil => simp [UnpackAppx.loop] at h
  | cons fileName fileNames ih =>
    unfold UnpackAppx.loop at h
    refine andThen_origin _ _ _ (perform_origin F _ _ _) ?_ e h
    intro w1 e1 h1
    cases hl : lookup fileName zip with
    | none =>
      rw [hl] at h1
      simp only [Option.some.injEq] at h1
      exact Or.inl h1.symm
    | some bytes =>
      rw [hl] at h1
      refine andThen_origin _ _ _ (perform_origin F _ _ _) ?_ e1 h1
      intro w2 e2 h2
      refine andThen_origin _ _ _ (perform_origin F _ _ _) ?_ e2 h2
      intro w3 e3 h3
      refine andThen_origin _ _ _ (perform_origin F _ _ _) ?_ e3 h3
      intro w4 e4 h4
      exact ih _ _ h4

theorem UnpackAppx.unpack_lambda_origin (F : Faults) (from_ to_ : String) (w : World) (e : Thrown)
    (h : (UnpackAppx.lambda F from_ to_ w).2 = some e) :
    e = F.missing ∨ ∃ op, F.inject op = some e := by
  unfold UnpackAppx.lambda at h
  refine andThen_origin _ _ _ (perform_origin F _ _ _) ?_ e h
  intro w1 e1 h1
  refine andThen_origin _ _ _ (perform_origin F _ _ _) ?_ e1 h1
  intro w2 e2 h2
  cases hl : lookup from_ w2.archives with
  | none =>
    rw [hl] at h2
    simp only [Option.some.injEq] at h2
    exact Or.inl h2.symm
  | some zip =>
    rw [hl] at h2
    refine andThen_origin _ _ _ (perform_origin F _ _ _) ?_ e2 h2
    intro w3 e3 h3
    refine andThen_origin _ _ _ (perform_origin F _ _ _) ?_ e3 h3
    intro w4 e4 h4
    exact UnpackAppx.unpack_loop_origin F to_ zip _ _ e4 h4

theorem PackAppx.loop_origin (F : Faults) (directory : Entries)
    (fileNames : List String) (w : World) (e : Thrown)
    (h : (PackAppx.loop F directory fileNames w).2 = some e) :
    e = F.missing ∨ ∃ op, F.inject op = some e := by
  induction fileNames generalizing w e with
  | nil => simp [PackAppx.loop] at h
  | cons fileName fileNames ih =>
    unfold PackAppx.loop at h
    refine andThen_origin _ _ _ (perform_origin F _ _ _) ?_ e h
    intro w1 e1 h1
    cases hl : lookup fileName directory with
    | none =>
      rw [hl] at h1
      simp only [Option.some.injEq] at h1
      exact Or.inl h1.symm
    | some bytes =>
      rw [hl] at h1
      refine andThen_origin _ _ _ (perform_origin F _ _ _) ?_ e1 h1
      intro w2 e2 h2
      refine andThen_origin _ _ _ (perform_origin F _ _ _) ?_ e2 h2
      intro w3 e3 h3
      exact ih _ _ h3

theorem PackAppx.lambda_origin (F : Faults) (from_ to_ : String) (w : World) (e : Thrown)
    (h : (PackAppx.lambda F from_ to_ w).2 = some e) :
    e = F.missing ∨ ∃ op, F.inject op = some e := by
  unfold PackAppx.lambda at h
  refine andThen_origin _ _ _ (perform_origin F _ _ _) ?_ e h
  intro w1 e1 h1
  refine andThen_origin _ _ _ (perform_origin F _ _ _) ?_ e1 h1
  intro w2 e2 h2
  refine andThen_origin _ _ _ (perform_origin F _ _ _) ?_ e2 h2
  intro w3 e3 h3
  refine andThen_origin _ _ _ (perform_origin F _ _ _) ?_ e3 h3
  intro w4 e4 h4
  cases hl : lookup from_ w4.directories with
  | none =>
    rw [hl] at h4
    simp only [Option.some.injEq] at h4
    exact Or.inl h4.symm
  | some directory =>
    rw [hl] at h4
    refine andThen_origin _ _ _ (PackAppx.loop_origin F directory _ _) ?_ e4 h4
    intro w5 e5 h5
    exact perform_origin F _ _ _ e5 h5

theorem ResultOf₂_returned_zero {σ : Type} (X : Exceptions) (source destination : String)
    (lambda : σ → σ × Option Thrown) (world : σ)
    (h : (ResultOf₂ X (some source) (some destination) lambda world).2 = Completion.returned 0)
    (hne : (lambda world).2 ≠ some (Thrown.ExceptionBase 0)) :
    (lambda world).2 = none := by
  simp only [ResultOf₂, reduceCtorEq, or_self, if_false] at h
  split at h
  · assumption
  · rename_i Code hc
    simp only [Completion.returned.injEq] at h
    subst h
    exact absurd hc hne
  · simp at h

theorem Faults.not_zero (F : Faults)
    (hF : F.missing ≠ Thrown.ExceptionBase 0 ∧ ∀ op, F.inject op ≠ some (Thrown.ExceptionBase 0))
    (t : Option Thrown) (ht : ∀ e, t = some e → e = F.missing ∨ ∃ op, F.inject op = some e) :
    t ≠ some (Thrown.ExceptionBase 0) := by
  intro h
  rcases ht _ h with h1 | ⟨op, h2⟩
  · exact hF.1 h1.symm
  · exact hF.2 op h2

theorem count_commits_steps (fileNames : List String) :
    (fileNames.flatMap PackAppx.steps).count Op.zip_CommitChanges = 0 := by
  induction fileNames with
  | nil => rfl
  | cons n ns ih => simp [List.flatMap_cons, List.count_append, ih, PackAppx.steps]

/-! ## Claims -/

/-- Claim C1 as stated fails. A 2-byte field holding 1 whose validator throws
nothing and adds one to the value it is handed: the validator accepts the
value, `Write()` then `Read()` from the start of the bytes just written throws
nothing, and the field holds 3 afterwards, the validator having run twice. -/
theorem Write_then_Read_changes_value :
    (Sample.increment.run 1).thrown = none ∧
    (Sample.counter.Read ((Sample.counter.Write Sample.stream).Seek Sample.stream.pos)).thrown
      = none ∧
    Sample.counter.leaves = [Value.integer 2 1] ∧
    (Sample.counter.Read
        ((Sample.counter.Write Sample.stream).Seek Sample.stream.pos)).object.leaves
      = [Value.integer 2 3] := by
  decide

/-- Claim C1, amended: for every object (fixed-width fields, N-byte fields,
nested structured objects) whose validators accept the current field values and
leave them as they are, `Write()` followed by `Read()` from the start of the
bytes just written throws nothing and leaves every field value as it was before
the `Write`; the stream ends where the `Write` left it. -/
theorem Write_then_Read_keeps_values (o : Object) (s : StreamBase)
    (hv : o.Accepted) (ht : o.Representable = true) :
    (o.Read ((o.Write s).Seek s.pos)).thrown = none ∧
    (o.Read ((o.Write s).Seek s.pos)).object.leaves = o.leaves ∧
    (o.Read ((o.Write s).Seek s.pos)).stream = o.Write s := by
  rw [Object.Write_eq, StreamBase.Seek_Write]
  have h := Object.Read_bytes o s.before (s.after.drop o.bytes.length) hv ht
  exact ⟨h.1, h.2.2.1, h.2.1⟩

/-- The round trip of the amended C1 on `Sample.header` written into
`Sample.stream`. -/
theorem Write_then_Read_keeps_values_witness :
    Sample.header.Representable = true ∧
    (Sample.header.Read
        ((Sample.header.Write Sample.stream).Seek Sample.stream.pos)).thrown = none ∧
    (Sample.header.Read
        ((Sample.header.Write Sample.stream).Seek Sample.stream.pos)).object.leaves
      = Sample.header.leaves ∧
    (Sample.header.Read ((Sample.header.Write Sample.stream).Seek Sample.stream.pos)).stream
      = Sample.header.Write Sample.stream :=
  ⟨by decide,
    Write_then_Read_keeps_values Sample.header Sample.stream
      (by simp [Sample.header, Object.Accepted, StructuredObject.Accepted, Field2Bytes,
        Field4Bytes, Field8Bytes, Sample.expect, Sample.accept, Sample.atMost, Lambda.check])
      (by decide)⟩

/-- Claim C4: for every lambda and every world, `ResultOf(source, destination,
lambda)` returns the code of `InvalidArgumentException` when `source` is null
and when `destination` is null, `ResultOf(appx, lambda)` returns it when `appx`
is null, and so does `ValidateAppxSignature(nullptr)`; the world comes back as
it was, whatever the lambda would have done to it: the lambda is not run. -/
theorem ResultOf_null_argument {σ : Type} (X : Exceptions) (path : Option String)
    (lambda : σ → σ × Option Thrown) (world : σ) (files : Collaborators) :
    ResultOf₂ X none path lambda world
      = (world, Completion.returned X.InvalidArgumentException) ∧
    ResultOf₂ X path none lambda world
      = (world, Completion.returned X.InvalidArgumentException) ∧
    ResultOf₁ X none lambda world
      = (world, Completion.returned X.InvalidArgumentException) ∧
    ValidateAppxSignature X files none
      = Completion.returned X.InvalidArgumentException := by
  refine ⟨?_, ?_, ?_, ?_⟩ <;> simp [ResultOf₂, ResultOf₁, ValidateAppxSignature]

/-- Claim C5, the code at the failing input: a lambda that throws an object
which is not an `xPlat::ExceptionBase` is not caught by either `ResultOf`; the
exception leaves the function and no code is returned. -/
theorem ResultOf_lets_other_exceptions_escape {σ : Type} (X : Exceptions)
    (source destination appx : String) (what : Nat) (world : σ) :
    ResultOf₂ X (some source) (some destination)
        (fun w => (w, some (Thrown.other what))) world
      = (world, Completion.escaped (Thrown.other what)) ∧
    ResultOf₁ X (some appx) (fun w => (w, some (Thrown.other what))) world
      = (world, Completion.escaped (Thrown.other what)) := by
  simp [ResultOf₂, ResultOf₁]

/-- Claim C6: with non-null paths, both `ResultOf` return `result` where
`result` is 0 when the lambda returns and is the code carried by the exception
when the lambda throws an `xPlat::ExceptionBase`; the code is handed back as it
is, so different codes give different return values. -/
theorem ResultOf_returns_code {σ : Type} (X : Exceptions)
    (source destination appx : String) (lambda : σ → σ × Option Thrown) (world : σ)
    (result : Nat)
    (h : ((lambda world).2 = none ∧ result = 0) ∨
         (lambda world).2 = some (Thrown.ExceptionBase result)) :
    ResultOf₂ X (some source) (some destination) lambda world
      = ((lambda world).1, Completion.returned result) ∧
    ResultOf₁ X (some appx) lambda world
      = ((lambda world).1, Completion.returned result) := by
  rcases h with ⟨h, rfl⟩ | h <;> simp [ResultOf₂, ResultOf₁, h]

/-- The two cases of C6: a lambda that returns, and one that throws an
`xPlat::ExceptionBase` with code 7; each ran once. -/
theorem ResultOf_returns_code_witness :
    (ResultOf₂ Sample.codes (some "a") (some "b") (Sample.counting none) 0
        = (1, Completion.returned 0) ∧
      ResultOf₁ Sample.codes (some "c") (Sample.counting none) 0
        = (1, Completion.returned 0)) ∧
    (ResultOf₂ Sample.codes (some "a") (some "b")
          (Sample.counting (some (Thrown.ExceptionBase 7))) 0
        = (1, Completion.returned 7) ∧
      ResultOf₁ Sample.codes (some "c")
          (Sample.counting (some (Thrown.ExceptionBase 7))) 0
        = (1, Completion.returned 7)) :=
  ⟨ResultOf_returns_code Sample.codes "a" "b" "c" (Sample.counting none) 0 0
      (Or.inl ⟨rfl, rfl⟩),
    ResultOf_returns_code Sample.codes "a" "b" "c"
      (Sample.counting (some (Thrown.ExceptionBase 7))) 0 7 (Or.inr rfl)⟩

/-- Claim C7 as stated fails. With a signature entry of no bytes, and with one
of 74 zero bytes (a whole header, its magic id 0), `ValidateAppxSignature`
returns 0 and not the code of `InvalidStreamFormat`. -/
theorem ValidateAppxSignature_accepts_short_entry :
    ValidateAppxSignature Sample.codes (Sample.world []) (some "package.appx")
      = Completion.returned 0 ∧
    (List.replicate 74 0).length = BLOBHEADER.sizeof ∧
    decodeLE ((List.replicate 74 0).take 4) ≠ SIGNATURE_ID ∧
    ValidateAppxSignature Sample.codes (Sample.world (List.replicate 74 0)) (some "package.appx")
      = Completion.returned 0 ∧
    Completion.returned 0 ≠ Completion.returned Sample.codes.InvalidStreamFormat := by
  decide

/-- Claim C7, amended: when the container opens and holds the signature entry,
the entry has more than `sizeof(BLOBHEADER)` = 74 bytes and the magic id in its
first four bytes differs from `SIGNATURE_ID`, `ValidateAppxSignature` returns
the code of `InvalidStreamFormat`. -/
theorem ValidateAppxSignature_rejects_wrong_magic (X : Exceptions) (world : Collaborators)
    (appx : String) (rawFile : StreamBase) (zip : ZipObject) (p7xStream : StreamBase)
    (h1 : world.openFile appx = Except.ok rawFile)
    (h2 : world.openZip rawFile = Except.ok zip)
    (h3 : zip.GetFile "AppxSignature.p7x" = Except.ok p7xStream)
    (hlen : BLOBHEADER.sizeof < p7xStream.after.length)
    (hmagic : decodeLE (p7xStream.after.take 4) ≠ SIGNATURE_ID) :
    ValidateAppxSignature X world (some appx) = Completion.returned X.InvalidStreamFormat := by
  rw [ValidateAppxSignature_eq X world appx rawFile zip p7xStream h1 h2 h3]
  simp [hlen, hmagic]

/-- The amended C7 on a signature entry of 75 zero bytes. -/
theorem ValidateAppxSignature_rejects_wrong_magic_witness :
    BLOBHEADER.sizeof < (List.replicate 75 0).length ∧
    decodeLE ((List.replicate 75 0).take 4) ≠ SIGNATURE_ID ∧
    ValidateAppxSignature Sample.codes (Sample.world (List.replicate 75 0))
      (some "package.appx") = Completion.returned 2 :=
  ⟨by decide, by decide,
    ValidateAppxSignature_rejects_wrong_magic Sample.codes (Sample.world (List.replicate 75 0))
      "package.appx" { before := [], after := [] } (Sample.zip (List.replicate 75 0))
      { before := [], after := List.replicate 75 0 } rfl rfl rfl (by decide) (by decide)⟩

/-- Claim C8: when the container opens and holds the signature entry, the entry
is longer than `sizeof(BLOBHEADER)` = 74 bytes and begins with the bytes
`50 4B 43 58` of the magic 0x58434B50, `ValidateAppxSignature` returns 0,
whatever the bytes after the magic are. -/
theorem ValidateAppxSignature_accepts_magic (X : Exceptions) (world : Collaborators)
    (appx : String) (rawFile : StreamBase) (zip : ZipObject) (p7xStream : StreamBase)
    (h1 : world.openFile appx = Except.ok rawFile)
    (h2 : world.openZip rawFile = Except.ok zip)
    (h3 : zip.GetFile "AppxSignature.p7x" = Except.ok p7xStream)
    (_hlen : BLOBHEADER.sizeof < p7xStream.after.length)
    (hmagic : p7xStream.after.take 4 = [0x50, 0x4B, 0x43, 0x58]) :
    ValidateAppxSignature X world (some appx) = Completion.returned 0 := by
  rw [ValidateAppxSignature_eq X world appx rawFile zip p7xStream h1 h2 h3, hmagic]
  simp [decodeLE, SIGNATURE_ID]

/-- The acceptance of C8 on the magic followed by 71 bytes 255. -/
theorem ValidateAppxSignature_accepts_magic_witness :
    BLOBHEADER.sizeof < ([0x50, 0x4B, 0x43, 0x58] ++ List.replicate 71 255).length ∧
    ValidateAppxSignature Sample.codes
      (Sample.world ([0x50, 0x4B, 0x43, 0x58] ++ List.replicate 71 255))
      (some "package.appx") = Completion.returned 0 :=
  ⟨by decide,
    ValidateAppxSignature_accepts_magic Sample.codes
      (Sample.world ([0x50, 0x4B, 0x43, 0x58] ++ List.replicate 71 255))
      "package.appx" { before := [], after := [] }
      (Sample.zip ([0x50, 0x4B, 0x43, 0x58] ++ List.replicate 71 255))
      { before := [], after := [0x50, 0x4B, 0x43, 0x58] ++ List.replicate 71 255 }
      rfl rfl rfl (by decide) rfl⟩

/-- Claim C9: reading a package header whose bytes start with the package
header id, a header size and a 64-bit version throws the unsupported-version
exception when the version is above `MAX_SUPPORTED_EAPPX_VERSION` =
0x0001000000000000, as 0x0001000000000001 is, and throws nothing when the
version is that ceiling or below it, whatever bytes follow. -/
theorem PackageHeader_version_gate (X : Exceptions) (unsupportedVersion : Thrown)
    (b rest : List Nat) (headerSize version : Nat)
    (hs : headerSize < 256 ^ 2) (hv : version < 256 ^ 8) :
    (MAX_SUPPORTED_EAPPX_VERSION < version →
      ((PackageHeader X unsupportedVersion).Read
        { before := b
          after := encodeLE 4 PACKAGE_HEADER_ID
            ++ (encodeLE 2 headerSize ++ (encodeLE 8 version ++ rest)) }).thrown
        = some unsupportedVersion) ∧
    (version ≤ MAX_SUPPORTED_EAPPX_VERSION →
      ((PackageHeader X unsupportedVersion).Read
        { before := b
          after := encodeLE 4 PACKAGE_HEADER_ID
            ++ (encodeLE 2 headerSize ++ (encodeLE 8 version ++ rest)) }).thrown = none) := by
  have hid : PACKAGE_HEADER_ID < 256 ^ 4 := by decide
  have h : ((PackageHeader X unsupportedVersion).Read
        { before := b
          after := encodeLE 4 PACKAGE_HEADER_ID
            ++ (encodeLE 2 headerSize ++ (encodeLE 8 version ++ rest)) }).thrown
      = if version ≤ MAX_SUPPORTED_EAPPX_VERSION then none else some unsupportedVersion := by
    rw [PackageHeader, BLOBHEADER.object, Object.Read_StructuredObject_thrown]
    simp only [Field4Bytes, Field2Bytes, Field8Bytes]
    rw [StructuredObject.Read_cons_check 4 0 PACKAGE_HEADER_ID _ _ b _ hid]
    simp only [if_true]
    rw [StructuredObject.Read_cons_check 2 0 headerSize _ _ _ _ hs,
      StructuredObject.Read_cons_check 8 0 version _ _ _ _ hv]
    by_cases hle : version ≤ MAX_SUPPORTED_EAPPX_VERSION
    · rw [if_pos hle]
      simp only [if_pos hle]
      refine (StructuredObject.Read_fields_Lenient _ _ ?_).1
      simp only [StructuredObject.Lenient, Object.Lenient, Lambda.check, implies_true, and_self]
    · rw [if_neg hle]
  refine ⟨fun hgt => ?_, fun hle => ?_⟩
  · rw [h, if_neg (Nat.not_le.mpr hgt)]
  · rw [h, if_pos hle]

/-- The version gate of C9 on the two versions it names: the header with
version 0x0001000000000001 ends in the unsupported-version exception, the
header with version 0x0001000000000000 is read without one. -/
theorem PackageHeader_version_gate_witness :
    ((PackageHeader Sample.codes (Thrown.ExceptionBase 3)).Read
        { before := []
          after := encodeLE 4 PACKAGE_HEADER_ID
            ++ (encodeLE 2 74 ++ (encodeLE 8 0x0001000000000001 ++ List.replicate 60 0)) }).thrown
      = some (Thrown.ExceptionBase 3) ∧
    ((PackageHeader Sample.codes (Thrown.ExceptionBase 3)).Read
        { before := []
          after := encodeLE 4 PACKAGE_HEADER_ID
            ++ (encodeLE 2 74 ++ (encodeLE 8 0x0001000000000000 ++ List.replicate 60 0)) }).thrown
      = none :=
  ⟨(PackageHeader_version_gate Sample.codes (Thrown.ExceptionBase 3) [] (List.replicate 60 0)
      74 0x0001000000000001 (by decide) (by decide)).1 (by decide),
   (PackageHeader_version_gate Sample.codes (Thrown.ExceptionBase 3) [] (List.replicate 60 0)
      74 0x0001000000000000 (by decide) (by decide)).2 (by decide)⟩

/-- Claim C10: reading an indirect-data block whose bytes are a 4-byte
`eappxId`, a 1-byte `digestCount` and anything after them throws when the count
is below `MIN_DIGEST_COUNT` = 5 or above `MAX_DIGEST_COUNT` = 6 (the validation
failure when the id is the indirect-data magic), and throws nothing when the id
is the indirect-data magic 0x58504145 and the count is 5 or 6. -/
theorem EAPPX_INDIRECT_DATA_digestCount_bound (formatInvalid validationFailed : Thrown)
    (b rest : List Nat) (eappxId digestCount : Nat) (hid : eappxId < 256 ^ 4) :
    ((digestCount < MIN_DIGEST_COUNT ∨ MAX_DIGEST_COUNT < digestCount) →
      (EAPPX_INDIRECT_DATA.Read formatInvalid validationFailed
        { before := b, after := encodeLE 4 eappxId ++ digestCount :: rest }).thrown
        = some (if eappxId = INDIRECT_DATA_ID then validationFailed else formatInvalid)) ∧
    (eappxId = INDIRECT_DATA_ID → (digestCount = 5 ∨ digestCount = 6) →
      (EAPPX_INDIRECT_DATA.Read formatInvalid validationFailed
        { before := b, after := encodeLE 4 eappxId ++ digestCount :: rest }).thrown = none) := by
  have hh := EAPPX_INDIRECT_DATA_head_Read formatInvalid validationFailed b rest eappxId
    digestCount hid
  constructor
  · intro hc
    have hn : ¬ (MIN_DIGEST_COUNT ≤ digestCount ∧ digestCount ≤ MAX_DIGEST_COUNT) := by omega
    rw [if_neg hn] at hh
    unfold EAPPX_INDIRECT_DATA.Read
    by_cases h : eappxId = INDIRECT_DATA_ID
    · rw [if_pos h] at hh ⊢
      simp only [hh]
    · rw [if_neg h] at hh ⊢
      simp only [hh]
  · intro h hc
    have hn : MIN_DIGEST_COUNT ≤ digestCount ∧ digestCount ≤ MAX_DIGEST_COUNT := by
      simp only [MIN_DIGEST_COUNT, MAX_DIGEST_COUNT]; omega
    rw [if_pos h, if_pos hn] at hh
    unfold EAPPX_INDIRECT_DATA.Read
    simp only [hh]
    rw [Object.Read_StructuredObject_thrown]
    exact INDIRECT_DATA_DIGEST_Read_all _ _

/-- The bound of C10 on blocks with the indirect-data magic: counts 4 and 7
fail validation, counts 5 and 6 pass. -/
theorem EAPPX_INDIRECT_DATA_digestCount_bound_witness :
    ((EAPPX_INDIRECT_DATA.Read (Thrown.ExceptionBase 2) (Thrown.ExceptionBase 4)
        (Sample.indirectData 4)).thrown = some (Thrown.ExceptionBase 4) ∧
      (EAPPX_INDIRECT_DATA.Read (Thrown.ExceptionBase 2) (Thrown.ExceptionBase 4)
        (Sample.indirectData 7)).thrown = some (Thrown.ExceptionBase 4)) ∧
    ((EAPPX_INDIRECT_DATA.Read (Thrown.ExceptionBase 2) (Thrown.ExceptionBase 4)
        (Sample.indirectData 5)).thrown = none ∧
      (EAPPX_INDIRECT_DATA.Read (Thrown.ExceptionBase 2) (Thrown.ExceptionBase 4)
        (Sample.indirectData 6)).thrown = none) :=
  ⟨⟨(EAPPX_INDIRECT_DATA_digestCount_bound (Thrown.ExceptionBase 2) (Thrown.ExceptionBase 4)
        [] (List.replicate (52 * 4) 0) INDIRECT_DATA_ID 4 (by decide)).1 (Or.inl (by decide)),
     (EAPPX_INDIRECT_DATA_digestCount_bound (Thrown.ExceptionBase 2) (Thrown.ExceptionBase 4)
        [] (List.replicate (52 * 7) 0) INDIRECT_DATA_ID 7 (by decide)).1 (Or.inr (by decide))⟩,
   ⟨(EAPPX_INDIRECT_DATA_digestCount_bound (Thrown.ExceptionBase 2) (Thrown.ExceptionBase 4)
        [] (List.replicate (52 * 5) 0) INDIRECT_DATA_ID 5 (by decide)).2 rfl (Or.inl rfl),
    (EAPPX_INDIRECT_DATA_digestCount_bound (Thrown.ExceptionBase 2) (Thrown.ExceptionBase 4)
        [] (List.replicate (52 * 6) 0) INDIRECT_DATA_ID 6 (by decide)).2 rfl (Or.inr rfl)⟩⟩

/-- Claim C11: reading a package header from bytes whose first four are the
little-endian bytes of an id other than `PACKAGE_HEADER_ID` = 0x48505845 throws
`InvalidStreamFormat`, whatever follows the id. -/
theorem PackageHeader_magic_mismatch (X : Exceptions) (unsupportedVersion : Thrown)
    (b rest : List Nat) (headerId : Nat)
    (hid : headerId < 256 ^ 4) (hne : headerId ≠ PACKAGE_HEADER_ID) :
    ((PackageHeader X unsupportedVersion).Read
        { before := b, after := encodeLE 4 headerId ++ rest }).thrown
      = some (Thrown.ExceptionBase X.InvalidStreamFormat) := by
  rw [PackageHeader, BLOBHEADER.object, Object.Read_StructuredObject_thrown]
  simp only [Field4Bytes]
  rw [StructuredObject.Read_cons_check 4 0 headerId _ _ b rest hid]
  simp only [if_neg hne]

/-- The mismatch of C11 on a header that starts with the bundle header id, next
to a header with the package header id that is read without an exception. -/
theorem PackageHeader_magic_mismatch_witness :
    BUNDLE_HEADER_ID < 256 ^ 4 ∧ BUNDLE_HEADER_ID ≠ PACKAGE_HEADER_ID ∧
    ((PackageHeader Sample.codes (Thrown.ExceptionBase 3)).Read
        { before := [], after := encodeLE 4 BUNDLE_HEADER_ID ++ List.replicate 70 0 }).thrown
      = some (Thrown.ExceptionBase 2) ∧
    ((PackageHeader Sample.codes (Thrown.ExceptionBase 3)).Read
        { before := [], after := encodeLE 4 PACKAGE_HEADER_ID ++ List.replicate 70 0 }).thrown
      = none :=
  ⟨by decide, by decide,
    PackageHeader_magic_mismatch Sample.codes (Thrown.ExceptionBase 3) []
      (List.replicate 70 0) BUNDLE_HEADER_ID (by decide) (by decide),
    by decide⟩

/-- Claim C14: for every object and whatever values its fields hold, `Write()`
appends to the stream the bytes of its children in declared order: the
`sizeof(T)` bytes of a fixed-width field, the held buffer of an N-byte field,
the concatenation of the children's bytes for a structured object, with nothing
in between. No validator takes part: the object whose validators all reject
every value writes the same. -/
theorem Write_appends_bytes_unvalidated (o : Object) (s : StreamBase) (e : Thrown) :
    o.Write s = { before := s.before ++ o.bytes, after := s.after.drop o.bytes.length } ∧
    (o.rejecting e).Write s = o.Write s ∧
    (∀ fields, (Object.StructuredObject fields).bytes = (fields.map Object.bytes).flatten) ∧
    (∀ sizeofT value validate, (Object.FieldBase sizeofT value validate).bytes
        = encodeLE sizeofT value ∧ (encodeLE sizeofT value).length = sizeofT) ∧
    (∀ value validate, (Object.FieldNBytes value validate).bytes = value) := by
  refine ⟨?_, ?_, ?_, ?_, ?_⟩
  · rw [Object.Write_eq]; rfl
  · rw [Object.Write_eq, Object.Write_eq, Object.rejecting_bytes]
  · intro fields
    simp only [Object.bytes, StructuredObject.bytes_eq_flatten]
  · intro sizeofT value validate
    exact ⟨by simp only [Object.bytes], encodeLE_length _ _⟩
  · intro value validate
    simp only [Object.bytes]

/-- Claim C15 as stated fails. An N-byte field with a buffer of 4 bytes, read
from a stream that holds 2 bytes, pulls 2 bytes and not `Size()` = 4; and an
N-byte field with a buffer of 2 bytes whose validator appends a byte has
`Size()` 2 before the `Read` and 3 after it. -/
theorem FieldNBytes_Read_pulls_fewer :
    (((Object.FieldNBytes [0, 0, 0, 0] Sample.accept).Read
        { before := [], after := [1, 2] }).stream.pos - 0 = 2 ∧
      (Object.FieldNBytes [0, 0, 0, 0] Sample.accept).Size = 4 ∧
      ((Object.FieldNBytes [0, 0, 0, 0] Sample.accept).Read
        { before := [], after := [1, 2] }).object.Size = 4) ∧
    ((Object.FieldNBytes [5, 6] Sample.grow).Size = 2 ∧
      ((Object.FieldNBytes [5, 6] Sample.grow).Read Sample.stream).object.Size = 3) := by
  decide

/-- Claim C15, amended: for every N-byte field, `Read()` issues one stream read
of `Size()` bytes, the length of its held buffer; when its validator does not
change the length of the buffer it is handed, the buffer length is unchanged,
so `Size()` is the same before and after whatever the stream holds; on a
stream that holds at least `Size()` bytes from the cursor it pulls exactly
`Size()` bytes; and a field whose buffer has length 0 leaves the stream as it
was. -/
theorem FieldNBytes_Read_frame (value : List Nat) (validate : Lambda (List Nat))
    (s : StreamBase) :
    ((Object.FieldNBytes value validate).Read s).stream
      = (s.Read (Object.FieldNBytes value validate).Size).2 ∧
    ((Object.FieldNBytes value validate).KeepsLength →
      ((Object.FieldNBytes value validate).Read s).object.Size
        = (Object.FieldNBytes value validate).Size) ∧
    ((Object.FieldNBytes value validate).Size ≤ s.after.length →
      ((Object.FieldNBytes value validate).Read s).stream.pos
        = s.pos + (Object.FieldNBytes value validate).Size) ∧
    ((Object.FieldNBytes [] validate).Read s).stream = s := by
  refine ⟨?_, fun hk => (Object.Read_KeepsLength _ s hk).1, fun h => ?_, ?_⟩
  · simp only [Object.Read, Object.Size]
  · simp only [Object.Read, Object.Size] at h ⊢
    exact StreamBase.Read_pos s _ h
  · simp only [Object.Read, List.length_nil, StreamBase.Read_zero]

/-- The amended C15 on a buffer of 3 bytes read from `Sample.stream`. -/
theorem FieldNBytes_Read_frame_witness :
    ((Object.FieldNBytes [7, 7, 7] Sample.accept).Read Sample.stream).object.Size = 3 ∧
    (Object.FieldNBytes [7, 7, 7] Sample.accept).Size ≤ Sample.stream.after.length ∧
    ((Object.FieldNBytes [7, 7, 7] Sample.accept).Read Sample.stream).stream.pos
      = Sample.stream.pos + 3 :=
  ⟨(FieldNBytes_Read_frame [7, 7, 7] Sample.accept Sample.stream).2.1
      (by simp [Object.KeepsLength, Sample.accept, Lambda.check]),
    by decide,
    (FieldNBytes_Read_frame [7, 7, 7] Sample.accept Sample.stream).2.2.1 (by decide)⟩

/-- Claim C17: the little-endian bytes of each of the ten magic constants are
the ASCII characters of its tag, and the ten constants are pairwise distinct. -/
theorem magic_constants_spell_tags :
    encodeLE 4 INDIRECT_DATA_ID = ['E', 'A', 'P', 'X'].map Char.toNat ∧
    encodeLE 4 PACKAGE_HEADER_ID = ['E', 'X', 'P', 'H'].map Char.toNat ∧
    encodeLE 4 BUNDLE_HEADER_ID = ['E', 'X', 'B', 'H'].map Char.toNat ∧
    encodeLE 4 SIGNATURE_ID = ['P', 'K', 'C', 'X'].map Char.toNat ∧
    encodeLE 4 AXEH = ['A', 'X', 'E', 'H'].map Char.toNat ∧
    encodeLE 4 AXEF = ['A', 'X', 'E', 'F'].map Char.toNat ∧
    encodeLE 4 AXEB = ['A', 'X', 'E', 'B'].map Char.toNat ∧
    encodeLE 4 AXPC = ['A', 'X', 'P', 'C'].map Char.toNat ∧
    encodeLE 4 AXBM = ['A', 'X', 'B', 'M'].map Char.toNat ∧
    encodeLE 4 AXCI = ['A', 'X', 'C', 'I'].map Char.toNat ∧
    [INDIRECT_DATA_ID, PACKAGE_HEADER_ID, BUNDLE_HEADER_ID, SIGNATURE_ID,
      AXEH, AXEF, AXEB, AXPC, AXBM, AXCI].Nodup := by
  decide

/-- Claim C20: `Write()` assigns no member of the object, so the object a second
`Write()` sees is the object the first one saw, with the same field values and
`Size()`: two consecutive calls put the object's bytes on the stream twice, and
the bytes the second call emits are the bytes the first call emitted. -/
theorem Write_twice_emits_same_bytes (o : Object) (s : StreamBase) :
    o.Write (o.Write s)
      = { before := s.before ++ o.bytes ++ o.bytes
          after := s.after.drop (o.bytes.length + o.bytes.length) } ∧
    (o.Write s).before.drop s.pos = o.bytes ∧
    (o.Write (o.Write s)).before.drop (o.Write s).pos = o.bytes ∧
    (o.Write (o.Write s)).pos = s.pos + o.Size + o.Size := by
  refine ⟨?_, ?_, ?_, ?_⟩
  · rw [Object.Write_eq, Object.Write_eq, StreamBase.Write_append]
    simp [StreamBase.Write]
  · rw [Object.Write_eq]
    simp [StreamBase.Write, StreamBase.pos]
  · rw [Object.Write_eq o (o.Write s)]
    simp [StreamBase.Write, StreamBase.pos]
  · rw [Object.Write_pos, Object.Write_pos]

/-- Claim C12: with collaborators that list, open and copy entries faithfully,
for an archive `A` whose entry names are distinct and a directory that is empty
to begin with, if `UnpackAppx(a, dir)` returns 0 and `PackAppx(dir, b)` then
returns 0, no collaborator failure having the code 0, the container at `b`
holds exactly the entries of `A`: the same names with the same bytes. -/
theorem Unpack_then_Pack_roundtrip (X : Exceptions) (F : Faults) (a dir b : String)
    (A : Entries) (w : World)
    (hF : F.missing ≠ Thrown.ExceptionBase 0 ∧
      ∀ op, F.inject op ≠ some (Thrown.ExceptionBase 0))
    (hA : lookup a w.archives = some A) (hn : (A.map Prod.fst).Nodup)
    (hdir : lookup dir w.directories = some [])
    (hU : (UnpackAppx X F (some a) (some dir) w).2 = Completion.returned 0)
    (hP : (PackAppx X F (some dir) (some b) (UnpackAppx X F (some a) (some dir) w).1).2
      = Completion.returned 0) :
    lookup b (PackAppx X F (some dir) (some b)
      (UnpackAppx X F (some a) (some dir) w).1).1.archives = some A := by
  simp only [UnpackAppx, PackAppx, Option.getD_some] at hU hP ⊢
  have hu := ResultOf₂_returned_zero X a dir _ w hU
    (Faults.not_zero F hF _ (UnpackAppx.unpack_lambda_origin F a dir w))
  rw [ResultOf₂_world] at hP ⊢
  have hp := ResultOf₂_returned_zero X dir b _ _ hP
    (Faults.not_zero F hF _ (PackAppx.lambda_origin F dir b _))
  rw [ResultOf₂_world]
  have h1 := UnpackAppx.unpack_lambda_ok F a dir w A hA hn hdir hu
  exact PackAppx.lambda_ok F dir b _ A h1.1 hn hp

/-- The round trip of C12 on `Sample.disk`: `a.appx` unpacked into `out`, `out`
packed into `b.appx`. -/
theorem Unpack_then_Pack_roundtrip_witness :
    lookup "a.appx" Sample.disk.archives = some Sample.archive ∧
    (Sample.archive.map Prod.fst).Nodup ∧
    lookup "out" Sample.disk.directories = some [] ∧
    (UnpackAppx Sample.codes Sample.noFaults (some "a.appx") (some "out") Sample.disk).2
      = Completion.returned 0 ∧
    lookup "b.appx" (PackAppx Sample.codes Sample.noFaults (some "out") (some "b.appx")
      (UnpackAppx Sample.codes Sample.noFaults (some "a.appx") (some "out")
        Sample.disk).1).1.archives = some Sample.archive :=
  ⟨by decide, by decide, by decide, by decide,
    Unpack_then_Pack_roundtrip Sample.codes Sample.noFaults "a.appx" "out" "b.appx"
      Sample.archive Sample.disk ⟨by decide, fun _ => by simp [Sample.noFaults]⟩
      (by decide) (by decide) (by decide) (by decide) (by decide)⟩

/-- Claim C16: in `PackAppx` over a directory that lists `m` entries, a run whose
lambda returns has made, after the calls that open the directory and the
container, the three calls of each entry in turn (open the source, open the
target entry, copy) and then `zip.CommitChanges()` as its last call, once; and
when a call for some entry fails, the lambda throws and no
`zip.CommitChanges()` call is made. -/
theorem PackAppx_commits_once_after_entries (X : Exceptions) (F : Faults)
    (from_ to_ : String) (w : World) (directory : Entries)
    (hdir : lookup from_ w.directories = some directory) :
    ((PackAppx.lambda F from_ to_ w).2 = none →
      (PackAppx X F (some from_) (some to_) w).1.trace
          = w.trace ++ PackAppx.prologue from_ to_
            ++ (directory.map Prod.fst).flatMap PackAppx.steps ++ [Op.zip_CommitChanges] ∧
      (PackAppx X F (some from_) (some to_) w).1.trace.count Op.zip_CommitChanges
          = w.trace.count Op.zip_CommitChanges + 1) ∧
    ((∃ fileName ∈ directory.map Prod.fst, ∃ op ∈ PackAppx.steps fileName,
        F.inject op ≠ none) →
      (PackAppx.lambda F from_ to_ w).2 ≠ none ∧
      (PackAppx X F (some from_) (some to_) w).1.trace.count Op.zip_CommitChanges
          = w.trace.count Op.zip_CommitChanges) := by
  simp only [PackAppx, Option.getD_some, ResultOf₂_world]
  constructor
  · intro h
    have ht := PackAppx.lambda_trace F from_ to_ w directory hdir h
    refine ⟨ht, ?_⟩
    rw [ht]
    simp [List.count_append, count_commits_steps, PackAppx.prologue]
  · intro h
    exact PackAppx.lambda_entry_fault F from_ to_ w directory hdir h

/-- The two cases of C16 on `Sample.unpacked`, a directory of three entries:
without failures the commit is the last of 14 calls; when copying `b.txt`
fails no commit is made. -/
theorem PackAppx_commits_once_after_entries_witness :
    (PackAppx Sample.codes Sample.noFaults (some "out") (some "b.appx")
        Sample.unpacked).1.trace
      = PackAppx.prologue "out" "b.appx"
        ++ (PackAppx.steps "AppxManifest.xml" ++ PackAppx.steps "b.txt"
          ++ PackAppx.steps "AppxSignature.p7x")
        ++ [Op.zip_CommitChanges] ∧
    (PackAppx Sample.codes Sample.copyFault (some "out") (some "b.appx")
        Sample.unpacked).1.trace.count Op.zip_CommitChanges = 0 :=
  ⟨((PackAppx_commits_once_after_entries Sample.codes Sample.noFaults "out" "b.appx"
        Sample.unpacked Sample.archive (by decide)).1 (by decide)).1.trans (by decide),
    ((PackAppx_commits_once_after_entries Sample.codes Sample.copyFault "out" "b.appx"
        Sample.unpacked Sample.archive (by decide)).2
          ⟨"b.txt", by decide, Op.CopyTo "b.txt", by decide, by decide⟩).2.trans (by decide)⟩

end xPlat
